import Mathlib

/-!
# Service gateway: registry and forwarding

A shallow embedding of `gateway/internal/registry/registry.go` and
`gateway/internal/services/gateway.go`, followed by the properties proved about them.

Conventions of the embedding:

* a Go `string` is the list of its bytes, compared lexicographically as Go's `<` does;
* a `time.Time` is an integer count of nanoseconds on one clock, a `time.Duration` an integer
  count of nanoseconds, and `now.Sub(last)` is their difference;
* every call of `time.Now()` is an explicit argument `now` of the operation that makes it;
* a Go `map[string]time.Time` is an association list with pairwise distinct keys; the order of
  the list is the order in which `range` visits the map.
-/

/-! ## The registry: `gateway/internal/registry/registry.go` -/

namespace registry

/-- A Go string, as the sequence of its bytes. -/
abbrev GoString := List Nat

/-- An instant, in nanoseconds. -/
abbrev Time := Int

/-- A `time.Duration`, in nanoseconds. -/
abbrev Duration := Int

/-- The record `ServiceStatus` of registry.go. -/
structure ServiceStatus where
  Addr : GoString
  Alive : Bool
deriving DecidableEq, Repr

/-- The map assignment `m[k] = v`: overwrite the entry of `k` if there is one, add one if not. -/
def mapSet : List (GoString × Time) → GoString → Time → List (GoString × Time)
  | [], k, v => [(k, v)]
  | (k', v') :: rest, k, v =>
    if k' = k then (k, v) :: rest else (k', v') :: mapSet rest k v

/-- The map read `v, exists := m[k]`. -/
def mapGet : List (GoString × Time) → GoString → Option Time
  | [], _ => none
  | (k', v') :: rest, k => if k' = k then some v' else mapGet rest k

theorem mapSet_keys_of_mem (m : List (GoString × Time)) (k : GoString) (v : Time)
    (h : k ∈ m.map Prod.fst) : (mapSet m k v).map Prod.fst = m.map Prod.fst := by
  induction m with
  | nil => simp at h
  | cons p rest ih =>
    obtain ⟨k', v'⟩ := p
    by_cases hk : k' = k
    · simp [mapSet, hk]
    · have hr : k ∈ rest.map Prod.fst := by
        simp only [List.map_cons, List.mem_cons] at h
        rcases h with h | h
        · exact absurd h.symm hk
        · exact h
      simp [mapSet, hk, ih hr]

theorem mapSet_keys_of_not_mem (m : List (GoString × Time)) (k : GoString) (v : Time)
    (h : k ∉ m.map Prod.fst) : (mapSet m k v).map Prod.fst = m.map Prod.fst ++ [k] := by
  induction m with
  | nil => simp [mapSet]
  | cons p rest ih =>
    obtain ⟨k', v'⟩ := p
    simp only [List.map_cons, List.mem_cons, not_or] at h
    have hk : ¬ k' = k := fun e => h.1 e.symm
    simp [mapSet, hk, ih h.2]

theorem mapSet_nodup (m : List (GoString × Time)) (k : GoString) (v : Time)
    (h : (m.map Prod.fst).Nodup) : ((mapSet m k v).map Prod.fst).Nodup := by
  by_cases hk : k ∈ m.map Prod.fst
  · rw [mapSet_keys_of_mem m k v hk]; exact h
  · rw [mapSet_keys_of_not_mem m k v hk]
    exact List.Nodup.append h (List.nodup_singleton k) (by simpa using hk)

/-- The struct `ServiceRegistry` of registry.go. The mutex is not part of the sequential state;
`distinct` records that `services` is a map. The cursor `idx` starts at 0 and is only ever
assigned 0 or a remainder, so it is a natural number. -/
structure ServiceRegistry where
  services : List (GoString × Time)
  distinct : (services.map Prod.fst).Nodup
  ttl : Duration
  idx : Nat

/-- The constructor `NewServiceRegistry`: an empty map, the given ttl, cursor 0. -/
def NewServiceRegistry (ttl : Duration) : ServiceRegistry :=
  { services := [], distinct := List.nodup_nil, ttl := ttl, idx := 0 }

/-- The method `Register`: `r.services[addr] = time.Now()`. -/
def Register (r : ServiceRegistry) (addr : GoString) (now : Time) : ServiceRegistry :=
  { r with services := mapSet r.services addr now,
           distinct := mapSet_nodup r.services addr now r.distinct }

/-- The method `Heartbeat`: refresh the entry of `addr` only if it exists. -/
def Heartbeat (r : ServiceRegistry) (addr : GoString) (now : Time) : ServiceRegistry :=
  match mapGet r.services addr with
  | some _ => { r with services := mapSet r.services addr now,
                       distinct := mapSet_nodup r.services addr now r.distinct }
  | none => r

/-- The order `sort.Slice` is asked for: by `Addr`, ascending. -/
def addrLE (x y : ServiceStatus) : Prop := x.Addr ≤ y.Addr

instance : DecidableRel addrLE := fun x y => inferInstanceAs (Decidable (x.Addr ≤ y.Addr))

instance : IsTotal ServiceStatus addrLE := ⟨fun x y => le_total x.Addr y.Addr⟩

instance : IsTrans ServiceStatus addrLE := ⟨fun _ _ _ h₁ h₂ => le_trans h₁ h₂⟩

/-- The loop of `Status` over the map: one record per entry, `Alive` computed at `now`. -/
def statusOf (ttl : Duration) (now : Time) (e : GoString × Time) : ServiceStatus :=
  { Addr := e.1, Alive := decide (now - e.2 ≤ ttl) }

/-- The method `Status`: the records of all entries, sorted by address. -/
def Status (r : ServiceRegistry) (now : Time) : List ServiceStatus :=
  let out := r.services.map (statusOf r.ttl now)
  out.insertionSort addrLE

/-- The slice `validAddrs` built by `NextInstance`: the addresses of the alive records of
`Status`, in the order of `Status`. -/
def validAddrs (r : ServiceRegistry) (now : Time) : List GoString :=
  ((Status r now).filter (fun s => s.Alive)).map (fun s => s.Addr)

/-- The method `NextInstance`: returns the chosen address (the empty string if none is alive)
and the registry with the cursor advanced. `now` is the clock reading of its `Status` call. -/
def NextInstance (r : ServiceRegistry) (now : Time) : GoString × ServiceRegistry :=
  let valid := validAddrs r now
  let count := valid.length
  if count = 0 then
    ([], r)
  else
    let idx := if r.idx ≥ count then 0 else r.idx
    let addr := valid.getD idx []
    (addr, { r with idx := (idx + 1) % count })

/-- A call made on the registry, with the clock reading it takes. -/
inductive Call where
  | register (addr : GoString) (now : Time)
  | heartbeat (addr : GoString) (now : Time)
  | next (now : Time)
deriving DecidableEq, Repr

/-- The effect of one call on the registry. -/
def applyCall (r : ServiceRegistry) : Call → ServiceRegistry
  | Call.register addr now => Register r addr now
  | Call.heartbeat addr now => Heartbeat r addr now
  | Call.next now => (NextInstance r now).2

/-- The registry after a sequence of calls, made one after the other. -/
def runCalls (r : ServiceRegistry) (calls : List Call) : ServiceRegistry :=
  calls.foldl applyCall r

/-- Whether `addr` is the argument of a `Register` call of the history. -/
def registeredIn (calls : List Call) (addr : GoString) : Bool :=
  calls.any (fun c => match c with
    | Call.register b _ => decide (b = addr)
    | _ => false)

/-- The last-seen time of `addr` as the specification words it, read off a history given most
recent call first: the time of the most recent `Register` of `addr`, or of the most recent
`Heartbeat` of `addr` made after `addr` was registered, whichever comes later. -/
def lastSeenRev (addr : GoString) : List Call → Option Time
  | [] => none
  | Call.register b t :: earlier =>
    if b = addr then some t else lastSeenRev addr earlier
  | Call.heartbeat b t :: earlier =>
    if b = addr ∧ registeredIn earlier addr = true then some t else lastSeenRev addr earlier
  | Call.next _ :: earlier => lastSeenRev addr earlier

/-- The specification's `last_seen` of `addr` after the calls `calls` (oldest first). -/
def lastSeenSpec (calls : List Call) (addr : GoString) : Option Time :=
  lastSeenRev addr calls.reverse

/-- The liveness rule of the specification, on the stored map: `addr` has an entry and its age at
`now` is at most the ttl. -/
def IsAlive (r : ServiceRegistry) (now : Time) (addr : GoString) : Prop :=
  ∃ t, mapGet r.services addr = some t ∧ now - t ≤ r.ttl

/-- Consecutive `NextInstance` calls, one per clock reading: the addresses returned, in order,
and the registry left behind. -/
def nextMany (r : ServiceRegistry) : List Time → List GoString × ServiceRegistry
  | [] => ([], r)
  | now :: rest =>
    let step := NextInstance r now
    let tail := nextMany step.2 rest
    (step.1 :: tail.1, tail.2)

/-- The cursor after the range check of `NextInstance`: `if r.idx >= count { r.idx = 0 }`. -/
def cursorStart (idx count : Nat) : Nat := if idx ≥ count then 0 else idx

/-- The keys of the map of a registry. -/
def keys (r : ServiceRegistry) : List GoString := r.services.map Prod.fst

/-- The statement a running `NextInstance` call is about to execute.

The method takes no lock of its own. Its first statement, `all := r.Status()`, runs under the
read lock that `Status` takes and releases; every later statement reads or writes `r.idx` with
no lock held. Each access to the shared registry is therefore a step of its own, and steps of
other goroutines may come between any two of them. -/
inductive Pc where
  | status
  | check
  | reset
  | index
  | load
  | store
  | returned
  | panicked
deriving DecidableEq, Repr

/-- The locals of a running `NextInstance` call: the clock reading of its `Status` call, the
statement it is at, `validAddrs`, `addr`, and the value of `(r.idx + 1) % count` once read. -/
structure NextCall where
  now : Time
  pc : Pc
  valid : List GoString
  addr : GoString
  next : Nat
deriving DecidableEq, Repr

/-- A call that has not started. -/
def NextCall.start (now : Time) : NextCall :=
  { now := now, pc := Pc.status, valid := [], addr := [], next := 0 }

/-- One step of a `NextInstance` call on the shared registry:
`status` is `all := r.Status()` with the loop that builds `validAddrs` and the test
`count == 0`; `check` is the test `r.idx >= count`; `reset` is `r.idx = 0`; `index` is
`addr := validAddrs[r.idx]`, which panics out of range; `load` evaluates `(r.idx + 1) % count`;
`store` assigns it to `r.idx` and returns. -/
def stepNext (r : ServiceRegistry) (c : NextCall) : ServiceRegistry × NextCall :=
  match c.pc with
  | Pc.status =>
    if (validAddrs r c.now).length = 0 then
      (r, { c with valid := validAddrs r c.now, addr := [], pc := Pc.returned })
    else
      (r, { c with valid := validAddrs r c.now, pc := Pc.check })
  | Pc.check =>
    if r.idx ≥ c.valid.length then (r, { c with pc := Pc.reset })
    else (r, { c with pc := Pc.index })
  | Pc.reset => ({ r with idx := 0 }, { c with pc := Pc.index })
  | Pc.index =>
    match c.valid[r.idx]? with
    | some a => (r, { c with addr := a, pc := Pc.load })
    | none => (r, { c with pc := Pc.panicked })
  | Pc.load => (r, { c with next := (r.idx + 1) % c.valid.length, pc := Pc.store })
  | Pc.store => ({ r with idx := c.next }, { c with pc := Pc.returned })
  | Pc.returned => (r, c)
  | Pc.panicked => (r, c)

/-- A goroutine working on the registry: a `NextInstance` call, or a `Register` call that has
or has not yet run. -/
inductive Goroutine where
  | nextInstance (c : NextCall)
  | register (addr : GoString) (now : Time) (ran : Bool)
deriving DecidableEq, Repr

/-- One step of a goroutine. `Register` holds the write lock for its whole body: one step. -/
def stepGoroutine (r : ServiceRegistry) : Goroutine → ServiceRegistry × Goroutine
  | Goroutine.nextInstance c => ((stepNext r c).1, Goroutine.nextInstance (stepNext r c).2)
  | Goroutine.register addr now false => (Register r addr now, Goroutine.register addr now true)
  | Goroutine.register addr now true => (r, Goroutine.register addr now true)

/-- The shared registry and the goroutines working on it. -/
structure System where
  reg : ServiceRegistry
  goroutines : List Goroutine

/-- The goroutine number `i` takes one step. -/
def System.step (s : System) (i : Nat) : System :=
  match s.goroutines[i]? with
  | none => s
  | some g =>
    { reg := (stepGoroutine s.reg g).1, goroutines := s.goroutines.set i (stepGoroutine s.reg g).2 }

/-- The system after a schedule, the list of the goroutines that step, in order. -/
def System.run (s : System) (schedule : List Nat) : System :=
  schedule.foldl System.step s

/-- A call run on its own, from its first statement to its return. -/
def runAlone (r : ServiceRegistry) (now : Time) : ServiceRegistry × NextCall :=
  let s₁ := stepNext r (NextCall.start now)
  let s₂ := stepNext s₁.1 s₁.2
  let s₃ := stepNext s₂.1 s₂.2
  let s₄ := stepNext s₃.1 s₃.2
  let s₅ := stepNext s₄.1 s₄.2
  stepNext s₅.1 s₅.2

/-- A registry with ttl one second in which "a" and "b" were registered at time 0. -/
def twoBackends : ServiceRegistry :=
  runCalls (NewServiceRegistry 1000000000) [Call.register [97] 0, Call.register [98] 0]

/-- Two `NextInstance` calls about to start on `twoBackends`. -/
def twoCallers : System :=
  { reg := twoBackends,
    goroutines := [Goroutine.nextInstance (NextCall.start 5),
      Goroutine.nextInstance (NextCall.start 5)] }

/-- A `NextInstance` call, a `Register` of "b" and a second `NextInstance` call about to start on
a registry that holds "a" alone. -/
def callersAndRegister : System :=
  { reg := runCalls (NewServiceRegistry 1000000000) [Call.register [97] 0],
    goroutines := [Goroutine.nextInstance (NextCall.start 5), Goroutine.register [98] 6 false,
      Goroutine.nextInstance (NextCall.start 7)] }

end registry

/-! ## The gateway: `gateway/internal/services/gateway.go` -/

namespace services

open registry

/-- The two errors a `context.Context` reports. -/
inductive CtxErr where
  | DeadlineExceeded
  | Canceled
deriving DecidableEq, Repr

/-- The errors `Forward` returns: its two own messages, the error of the bounded context, the
error of `http.NewRequestWithContext`, the error of `Client.Do`. -/
inductive Err where
  | notConfigured
  | noServices
  | ctx (e : CtxErr)
  | request (id : Nat)
  | transport (id : Nat)
deriving DecidableEq, Repr

/-- An `*http.Response`: its status code, and a tag standing for the rest of it. -/
structure Response where
  StatusCode : Int
  Body : Nat
deriving DecidableEq, Repr

/-- What `Client.Do` returns: a non-nil error, or a response with a nil error. -/
inductive DoResult where
  | fail (id : Nat)
  | ok (resp : Response)
deriving DecidableEq, Repr

/-- An `*http.Client`: for the request URL, the index of the call and the time it is issued, the
time the call takes and what it returns. -/
structure HttpClient where
  Do : GoString → Nat → Time → Duration × DoResult

/-- The bounded context as `Forward` observes it: the value of `ctx.Err()` at a time, and the
outcome of `select` on `time.After(d)` and `ctx.Done()` entered at a time, namely the time at
which it returns and, when `ctx.Done()` was taken, the value of `ctx.Err()`. -/
structure Context where
  Err : Time → Option CtxErr
  wait : Time → Duration → Time × Option CtxErr

/-- The surroundings of one `Forward` call: the context `context.WithTimeout` derives from the
caller's at a given time with a given timeout; the error, if any, of building the request for a
URL; and the int64 that the platform gives when a float64 is converted whose integer part, the
argument, does not fit an int64, a value Go leaves to the implementation. -/
structure World where
  WithTimeout : Time → Duration → Context
  NewRequest : GoString → Option Nat
  OutOfRange : Int → Duration

/-- The struct `Gateway` of gateway.go; `none` is a nil pointer. -/
structure Gateway where
  Client : Option HttpClient
  Registry : Option ServiceRegistry
  MaxRetries : Int
  Timeout : Duration
  BackoffBase : Duration

/-- The method `isRetryableStatus`. -/
def isRetryableStatus (code : Int) : Bool :=
  if code = 500 then true
  else if code = 502 then true
  else if code = 503 then true
  else if code = 504 then true
  else false

/-- The significand of the float64 constant `1.7`, which is `0x1B333333333333 * 2^-52`. -/
def f64_1_7 : Nat := 7656119366529843

/-- The number of binary digits of `n`, counted by halving; the first argument bounds the number
of halvings. -/
def bitLenAux : Nat → Nat → Nat
  | 0, _ => 0
  | fuel + 1, n => if n = 0 then 0 else bitLenAux fuel (n / 2) + 1

/-- The number of binary digits of `n`. -/
def bitLen (n : Nat) : Nat := bitLenAux n n

/-- Rounding of a natural number to 53 significant bits, ties to even: the float64 nearest to
the number, for numbers below `2^1024`. -/
def round53 (n : Nat) : Nat :=
  let bits := bitLen n
  if bits ≤ 53 then n
  else
    let sh := bits - 53
    let m := n / 2 ^ sh
    let rem := n % 2 ^ sh
    let half := 2 ^ (sh - 1)
    if rem > half ∨ (rem = half ∧ m % 2 = 1) then (m + 1) * 2 ^ sh else m * 2 ^ sh

/-- The magnitude of `time.Duration(float64(d) * 1.7)` for a magnitude `d`: convert to float64,
multiply by the constant and round, discard the fraction. -/
def mulBackoffNat (d : Nat) : Nat := round53 (round53 d * f64_1_7) / 2 ^ 52

/-- The integer part of the float64 product `float64(d) * 1.7`. The operations are symmetric in
the sign. -/
def mulBackoffExact (d : Duration) : Int :=
  if 0 ≤ d then (mulBackoffNat d.toNat : Int) else -(mulBackoffNat (-d).toNat : Int)

/-- The least int64. -/
def minInt64 : Int := -9223372036854775808

/-- The greatest int64. -/
def maxInt64 : Int := 9223372036854775807

/-- The update `backoff = time.Duration(float64(backoff) * 1.7)`: the integer part of the float64
product when it fits an int64, and otherwise what the platform's conversion gives for it. -/
def mulBackoff (outOfRange : Int → Duration) (d : Duration) : Duration :=
  if minInt64 ≤ mulBackoffExact d ∧ mulBackoffExact d ≤ maxInt64 then mulBackoffExact d
  else outOfRange (mulBackoffExact d)

/-- The conversion of an out-of-range float64 on amd64: the least int64, whatever the value. -/
def amd64OutOfRange : Int → Duration := fun _ => minInt64

/-- Whether the loop goes on to a sleep after the attempt number `attempt` returned `res`:
after a transport failure or a retryable status, when attempts remain. -/
def retriesAfter (f : Gateway) (attempt : Nat) : DoResult → Bool
  | DoResult.fail _ => decide ((attempt : Int) < f.MaxRetries)
  | DoResult.ok resp =>
    isRetryableStatus resp.StatusCode && decide ((attempt : Int) < f.MaxRetries)

/-- The outcome of one `Forward` call: the two return values, the times at which `Client.Do` was
called, the durations handed to `time.After`, and the time of the return. -/
structure Run where
  resp : Option Response
  err : Option Err
  issued : List Time
  sleeps : List Duration
  finish : Time
deriving DecidableEq, Repr

/-- The path `/data` appended to the target. -/
def dataPath : GoString := [47, 100, 97, 116, 97]

/-- A run that made one more attempt, at `t`, and one more sleep, of `d`, before `run`. -/
def Run.after (t : Time) (d : Duration) (run : Run) : Run :=
  { run with issued := t :: run.issued, sleeps := d :: run.sleeps }

/-- The retry loop of `Forward`. The first argument counts the iterations that remain of
`for attempt := 0; attempt <= f.MaxRetries; attempt++`; the others are `attempt`, the clock, and
the variables `backoff` and `resp`. -/
def retryLoop (f : Gateway) (c : HttpClient) (w : World) (ctx : Context) (target : GoString) :
    Nat → Nat → Time → Duration → Option Response → Run
  | 0, _, now, _, resp => { resp := resp, err := none, issued := [], sleeps := [], finish := now }
  | n + 1, attempt, now, backoff, _ =>
    match ctx.Err now with
    | some e =>
      { resp := none, err := some (Err.ctx e), issued := [], sleeps := [], finish := now }
    | none =>
      match w.NewRequest (target ++ dataPath) with
      | some e =>
        { resp := none, err := some (Err.request e), issued := [], sleeps := [], finish := now }
      | none =>
        match c.Do (target ++ dataPath) attempt now with
        | (dur, DoResult.fail e) =>
          if (attempt : Int) < f.MaxRetries then
            match ctx.wait (now + dur) backoff with
            | (t, none) =>
              Run.after now backoff
                (retryLoop f c w ctx target n (attempt + 1) t (mulBackoff w.OutOfRange backoff) none)
            | (t, some ce) =>
              { resp := none, err := some (Err.ctx ce), issued := [now], sleeps := [backoff],
                finish := t }
          else
            { resp := none, err := some (Err.transport e), issued := [now], sleeps := [],
              finish := now + dur }
        | (dur, DoResult.ok resp) =>
          if isRetryableStatus resp.StatusCode = true ∧ (attempt : Int) < f.MaxRetries then
            match ctx.wait (now + dur) backoff with
            | (t, none) =>
              Run.after now backoff
                (retryLoop f c w ctx target n (attempt + 1) t (mulBackoff w.OutOfRange backoff) (some resp))
            | (t, some ce) =>
              { resp := none, err := some (Err.ctx ce), issued := [now], sleeps := [backoff],
                finish := t }
          else
            { resp := some resp, err := none, issued := [now], sleeps := [], finish := now + dur }

/-- The method `Forward`, entered at time `now`: the outcome, and the gateway with the cursor of
its registry advanced by `NextInstance`. -/
def Forward (f : Gateway) (w : World) (now : Time) : Run × Gateway :=
  match f.Client, f.Registry with
  | some c, some reg =>
    let ctx := w.WithTimeout now f.Timeout
    let next := NextInstance reg now
    if next.1 = [] then
      ({ resp := none, err := some Err.noServices, issued := [], sleeps := [], finish := now },
        { f with Registry := some next.2 })
    else
      (retryLoop f c w ctx next.1 (f.MaxRetries + 1).toNat 0 now f.BackoffBase none,
        { f with Registry := some next.2 })
  | _, _ =>
    ({ resp := none, err := some Err.notConfigured, issued := [], sleeps := [], finish := now }, f)

/-- A context on an exact clock that is done from `doneAt` on, with error `e`. A timer of
duration `d` started at `t` fires at `t + max d 0`; `select` returns with whichever of the timer
and `Done` comes first, and `tie` decides when both come at once. -/
def idealContext (doneAt : Time) (e : CtxErr) (tie : Bool) : Context :=
  { Err := fun t => if doneAt ≤ t then some e else none,
    wait := fun t d =>
      let fire := t + max d 0
      let done := max t doneAt
      if fire < done then (fire, none)
      else if done < fire then (done, some e)
      else (fire, if tie then none else some e) }

/-- The world on an exact clock in which the caller's context is never done, so that the bounded
context expires `timeout` after its creation with `DeadlineExceeded`, every request can be
built, and conversions are those of amd64. -/
def idealWorld (tie : Bool) : World :=
  { WithTimeout := fun t timeout => idealContext (t + timeout) CtxErr.DeadlineExceeded tie,
    NewRequest := fun _ => none,
    OutOfRange := amd64OutOfRange }

/-- A bounded context that is not done at any time of the call: `Err` is nil throughout and
every timer fires. -/
def calmContext : Context :=
  { Err := fun _ => none, wait := fun t d => (t + max d 0, none) }

/-- The world of a call during which the bounded context is never done. -/
def calmWorld : World :=
  { WithTimeout := fun _ _ => calmContext, NewRequest := fun _ => none,
    OutOfRange := amd64OutOfRange }

/-- A client whose every call takes `dur` and returns a response with status `code`. -/
def statusClient (dur : Duration) (code : Int) : HttpClient :=
  { Do := fun _ _ _ => (dur, DoResult.ok { StatusCode := code, Body := 0 }) }

/-- A client whose every call takes `dur` and fails at the transport level. -/
def failingClient (dur : Duration) : HttpClient :=
  { Do := fun _ _ _ => (dur, DoResult.fail 0) }

/-- A registry with ttl one second in which "a" was registered at time 0. -/
def oneBackend : ServiceRegistry :=
  runCalls (NewServiceRegistry 1000000000) [Call.register [97] 0]

/-- Scenario C: two retries, backoff base 10ms, a backend that answers 503 after 1ms. -/
def scenarioC : Gateway :=
  { Client := some (statusClient 1000000 503), Registry := some oneBackend, MaxRetries := 2,
    Timeout := 2000000000, BackoffBase := 10000000 }

/-- Scenario D: deadline 50ms, backoff base 200ms, a backend that fails after 1ms. -/
def scenarioD : Gateway :=
  { Client := some (failingClient 1000000), Registry := some oneBackend, MaxRetries := 3,
    Timeout := 50000000, BackoffBase := 200000000 }

/-- A configured gateway whose retry count is negative. -/
def negativeRetries : Gateway :=
  { Client := some (statusClient 1000000 200), Registry := some oneBackend, MaxRetries := -1,
    Timeout := 2000000000, BackoffBase := 10000000 }

/-- A gateway with backoff base one nanosecond and a backend that always fails. -/
def tinyBackoff : Gateway :=
  { Client := some (failingClient 1000000), Registry := some oneBackend, MaxRetries := 2,
    Timeout := 2000000000, BackoffBase := 1 }

/-- The check of `net/url` that makes `http.NewRequestWithContext` fail: a URL that holds an
ASCII control byte, below `0x20` or `0x7f`, is refused. -/
def refusesControlByte (url : GoString) : Option Nat :=
  if url.any (fun b => decide (b < 32) || decide (b = 127)) then some 0 else none

/-- The world on an exact clock in which a request is refused when its URL holds an ASCII
control byte. -/
def strictWorld (tie : Bool) : World :=
  { WithTimeout := fun t timeout => idealContext (t + timeout) CtxErr.DeadlineExceeded tie,
    NewRequest := refusesControlByte,
    OutOfRange := amd64OutOfRange }

/-- A registry with ttl one second in which the one-byte address `"\x7f"` was registered at
time 0, as a POST to `/register` with that body does. -/
def controlByteBackend : ServiceRegistry :=
  runCalls (NewServiceRegistry 1000000000) [Call.register [127] 0]

/-- The gateway of scenario C over `controlByteBackend`. -/
def controlByteTarget : Gateway :=
  { Client := some (statusClient 1000000 503), Registry := some controlByteBackend,
    MaxRetries := 2, Timeout := 2000000000, BackoffBase := 10000000 }

/-- A gateway whose backoff base is negative and large, with a backend that always fails. -/
def hugeBackoff : Gateway :=
  { Client := some (failingClient 1000000), Registry := some oneBackend, MaxRetries := 2,
    Timeout := 2000000000, BackoffBase := -6000000000000000000 }

/-- The ways one iteration of the loop can go: it returns before any attempt (`stop`), it
returns after one attempt, having entered a sleep or not (`last`), or it makes one attempt,
sleeps `backoff` in full and goes on with the next iteration (`next`). -/
inductive Iter (f : Gateway) (c : HttpClient) (w : World) (ctx : Context) (target : GoString)
    (n attempt : Nat) (now : Time) (backoff : Duration) (run : Run) : Prop where
  | stop (hrun : run.issued = [] ∧ run.sleeps = [] ∧ run.resp = none ∧ run.err ≠ none) :
      Iter f c w ctx target n attempt now backoff run
  | last (hctx : ctx.Err now = none)
      (hrun : run.issued = [now] ∧
        (run.sleeps = [] ∨ (run.sleeps = [backoff] ∧ (attempt : Int) < f.MaxRetries)) ∧
        ((run.resp = none ∧ run.err ≠ none) ∨ (run.resp ≠ none ∧ run.err = none))) :
      Iter f c w ctx target n attempt now backoff run
  | next (hctx : ctx.Err now = none) (hmore : (attempt : Int) < f.MaxRetries) (t : Time)
      (resp : Option Response)
      (hrun : run = Run.after now backoff
        (retryLoop f c w ctx target n (attempt + 1) t (mulBackoff w.OutOfRange backoff) resp)) :
      Iter f c w ctx target n attempt now backoff run

/-- One iteration of the loop in full: what the loop returns, according to the value of
`ctx.Err()`, the request, the outcome of `Client.Do` and the outcome of the sleep. -/
inductive Step (f : Gateway) (c : HttpClient) (w : World) (ctx : Context) (target : GoString)
    (n attempt : Nat) (now : Time) (backoff : Duration) (run : Run) : Prop where
  | done (e : CtxErr) (hctx : ctx.Err now = some e)
      (hrun : run =
        { resp := none, err := some (Err.ctx e), issued := [], sleeps := [], finish := now }) :
      Step f c w ctx target n attempt now backoff run
  | refused (e : Nat) (hctx : ctx.Err now = none)
      (hreq : w.NewRequest (target ++ dataPath) = some e)
      (hrun : run =
        { resp := none, err := some (Err.request e), issued := [], sleeps := [],
          finish := now }) :
      Step f c w ctx target n attempt now backoff run
  | failed (e : Nat) (hctx : ctx.Err now = none)
      (hreq : w.NewRequest (target ++ dataPath) = none)
      (hres : (c.Do (target ++ dataPath) attempt now).2 = DoResult.fail e)
      (hstop : retriesAfter f attempt (c.Do (target ++ dataPath) attempt now).2 = false)
      (hrun : run =
        { resp := none, err := some (Err.transport e), issued := [now], sleeps := [],
          finish := now + (c.Do (target ++ dataPath) attempt now).1 }) :
      Step f c w ctx target n attempt now backoff run
  | answered (got : Response) (hctx : ctx.Err now = none)
      (hreq : w.NewRequest (target ++ dataPath) = none)
      (hres : (c.Do (target ++ dataPath) attempt now).2 = DoResult.ok got)
      (hstop : retriesAfter f attempt (c.Do (target ++ dataPath) attempt now).2 = false)
      (hrun : run =
        { resp := some got, err := none, issued := [now], sleeps := [],
          finish := now + (c.Do (target ++ dataPath) attempt now).1 }) :
      Step f c w ctx target n attempt now backoff run
  | cut (t : Time) (ce : CtxErr) (hctx : ctx.Err now = none)
      (hreq : w.NewRequest (target ++ dataPath) = none)
      (hgo : retriesAfter f attempt (c.Do (target ++ dataPath) attempt now).2 = true)
      (hwait : ctx.wait (now + (c.Do (target ++ dataPath) attempt now).1) backoff =
        (t, some ce))
      (hrun : run =
        { resp := none, err := some (Err.ctx ce), issued := [now], sleeps := [backoff],
          finish := t }) :
      Step f c w ctx target n attempt now backoff run
  | slept (t : Time) (resp : Option Response) (hctx : ctx.Err now = none)
      (hreq : w.NewRequest (target ++ dataPath) = none)
      (hgo : retriesAfter f attempt (c.Do (target ++ dataPath) attempt now).2 = true)
      (hwait : ctx.wait (now + (c.Do (target ++ dataPath) attempt now).1) backoff = (t, none))
      (hrun : run = Run.after now backoff
        (retryLoop f c w ctx target n (attempt + 1) t (mulBackoff w.OutOfRange backoff) resp)) :
      Step f c w ctx target n attempt now backoff run

end services

/-! ## Properties of the registry -/

namespace registry

theorem mapGet_mapSet (m : List (GoString × Time)) (k k' : GoString) (v : Time) :
    mapGet (mapSet m k v) k' = if k' = k then some v else mapGet m k' := by
  induction m with
  | nil =>
    by_cases h : k' = k
    · simp [mapSet, mapGet, h]
    · have h' : ¬ k = k' := fun e => h e.symm
      simp [mapSet, mapGet, h, h']
  | cons p rest ih =>
    obtain ⟨k₀, v₀⟩ := p
    by_cases h₀ : k₀ = k
    · subst h₀
      by_cases h : k' = k₀
      · simp [mapSet, mapGet, h]
      · have h' : ¬ k₀ = k' := fun e => h e.symm
        simp [mapSet, mapGet, h, h']
    · by_cases h₁ : k₀ = k'
      · subst h₁
        simp [mapSet, mapGet, h₀]
      · simp [mapSet, mapGet, h₀, h₁, ih]

theorem mapGet_eq_none_iff (m : List (GoString × Time)) (k : GoString) :
    mapGet m k = none ↔ k ∉ m.map Prod.fst := by
  induction m with
  | nil => simp [mapGet]
  | cons p rest ih =>
    obtain ⟨k₀, v₀⟩ := p
    by_cases h : k₀ = k
    · simp [mapGet, h]
    · have h' : ¬ k = k₀ := fun e => h e.symm
      simp [mapGet, h, h', ih]

theorem mapGet_eq_some_iff (m : List (GoString × Time)) (hm : (m.map Prod.fst).Nodup)
    (k : GoString) (v : Time) : mapGet m k = some v ↔ (k, v) ∈ m := by
  induction m with
  | nil => simp [mapGet]
  | cons p rest ih =>
    obtain ⟨k₀, v₀⟩ := p
    simp only [List.map_cons, List.nodup_cons] at hm
    by_cases h : k₀ = k
    · subst h
      have hnot : ∀ w, (k₀, w) ∉ rest := fun w hw =>
        hm.1 (List.mem_map.mpr ⟨(k₀, w), hw, rfl⟩)
      simp only [mapGet, if_true, Option.some.injEq, List.mem_cons, Prod.mk.injEq, true_and]
      constructor
      · intro e; exact Or.inl e.symm
      · rintro (e | e)
        · exact e.symm
        · exact absurd e (hnot v)
    · have h' : ¬ k = k₀ := fun e => h e.symm
      simp [mapGet, h, h', ih hm.2]

theorem keys_Register (r : ServiceRegistry) (addr : GoString) (now : Time) (a : GoString) :
    a ∈ keys (Register r addr now) ↔ a = addr ∨ a ∈ keys r := by
  unfold keys Register
  by_cases h : addr ∈ r.services.map Prod.fst
  · simp only [mapSet_keys_of_mem _ _ _ h]
    constructor
    · exact Or.inr
    · rintro (e | e)
      · exact e ▸ h
      · exact e
  · simp only [mapSet_keys_of_not_mem _ _ _ h, List.mem_append, List.mem_singleton]
    exact Or.comm

theorem keys_Heartbeat (r : ServiceRegistry) (addr : GoString) (now : Time) :
    keys (Heartbeat r addr now) = keys r := by
  unfold keys Heartbeat
  cases hg : mapGet r.services addr with
  | none => rfl
  | some t =>
    have hmem : addr ∈ r.services.map Prod.fst := by
      by_contra hn
      rw [(mapGet_eq_none_iff _ _).mpr hn] at hg
      exact Option.noConfusion hg
    simp only [mapSet_keys_of_mem _ _ _ hmem]

theorem services_NextInstance (r : ServiceRegistry) (now : Time) :
    (NextInstance r now).2.services = r.services := by
  unfold NextInstance
  simp only
  split <;> rfl

theorem ttl_NextInstance (r : ServiceRegistry) (now : Time) :
    (NextInstance r now).2.ttl = r.ttl := by
  unfold NextInstance
  simp only
  split <;> rfl

theorem ttl_applyCall (r : ServiceRegistry) (c : Call) : (applyCall r c).ttl = r.ttl := by
  cases c with
  | register addr now => rfl
  | heartbeat addr now =>
    simp only [applyCall, Heartbeat]
    split <;> rfl
  | next now => exact ttl_NextInstance r now

theorem ttl_runCalls (r : ServiceRegistry) (calls : List Call) :
    (runCalls r calls).ttl = r.ttl := by
  induction calls generalizing r with
  | nil => rfl
  | cons c rest ih =>
    simp only [runCalls, List.foldl_cons] at ih ⊢
    rw [ih, ttl_applyCall]

theorem keys_applyCall (r : ServiceRegistry) (c : Call) (a : GoString) :
    a ∈ keys (applyCall r c) ↔ a ∈ keys r ∨ ∃ t, c = Call.register a t := by
  cases c with
  | register addr now =>
    simp only [applyCall, keys_Register, Call.register.injEq]
    constructor
    · rintro (e | e)
      · exact Or.inr ⟨now, e.symm, rfl⟩
      · exact Or.inl e
    · rintro (e | ⟨t, e, _⟩)
      · exact Or.inr e
      · exact Or.inl e.symm
  | heartbeat addr now => simp [applyCall, keys_Heartbeat]
  | next now => simp [applyCall, keys, services_NextInstance]

theorem keys_runCalls (r : ServiceRegistry) (calls : List Call) (a : GoString) :
    a ∈ keys (runCalls r calls) ↔ a ∈ keys r ∨ ∃ t, Call.register a t ∈ calls := by
  induction calls generalizing r with
  | nil => simp [runCalls]
  | cons c rest ih =>
    simp only [runCalls, List.foldl_cons] at ih ⊢
    rw [ih, keys_applyCall]
    simp only [List.mem_cons]
    constructor
    · rintro ((h | ⟨t, h⟩) | ⟨t, h⟩)
      · exact Or.inl h
      · exact Or.inr ⟨t, Or.inl h.symm⟩
      · exact Or.inr ⟨t, Or.inr h⟩
    · rintro (h | ⟨t, h | h⟩)
      · exact Or.inl (Or.inl h)
      · exact Or.inl (Or.inr ⟨t, h.symm⟩)
      · exact Or.inr ⟨t, h⟩

theorem Status_perm (r : ServiceRegistry) (now : Time) :
    (Status r now).Perm (r.services.map (statusOf r.ttl now)) :=
  List.perm_insertionSort addrLE _

theorem Status_addrs_perm (r : ServiceRegistry) (now : Time) :
    ((Status r now).map (fun s => s.Addr)).Perm (keys r) := by
  have h := (Status_perm r now).map (fun s => s.Addr)
  simpa [keys, statusOf, Function.comp_def] using h

theorem Status_addrs_nodup (r : ServiceRegistry) (now : Time) :
    ((Status r now).map (fun s => s.Addr)).Nodup :=
  (Status_addrs_perm r now).nodup_iff.mpr r.distinct

theorem Status_sorted_le (r : ServiceRegistry) (now : Time) :
    ((Status r now).map (fun s => s.Addr)).Sorted (· ≤ ·) := by
  have h : (Status r now).Sorted addrLE := List.sorted_insertionSort addrLE _
  exact List.pairwise_map.mpr h

theorem Status_sorted_lt (r : ServiceRegistry) (now : Time) :
    ((Status r now).map (fun s => s.Addr)).Sorted (· < ·) :=
  (Status_sorted_le r now).lt_of_le (Status_addrs_nodup r now)

theorem mem_Status (r : ServiceRegistry) (now : Time) (s : ServiceStatus) :
    s ∈ Status r now ↔
      ∃ t, mapGet r.services s.Addr = some t ∧ s.Alive = decide (now - t ≤ r.ttl) := by
  rw [(Status_perm r now).mem_iff, List.mem_map]
  constructor
  · rintro ⟨⟨k, t⟩, hmem, rfl⟩
    exact ⟨t, (mapGet_eq_some_iff _ r.distinct k t).mpr hmem, rfl⟩
  · rintro ⟨t, hget, halive⟩
    refine ⟨(s.Addr, t), (mapGet_eq_some_iff _ r.distinct _ t).mp hget, ?_⟩
    cases s
    simp only [statusOf] at halive ⊢
    simp [halive]

/-- The result of `Status` does not depend on how the records are sorted: it is the only
list that holds the records of the entries and ascends strictly by address. -/
theorem Status_unique (r : ServiceRegistry) (now : Time) (out : List ServiceStatus)
    (hperm : out.Perm (r.services.map (statusOf r.ttl now)))
    (hsorted : (out.map (fun s => s.Addr)).Sorted (· < ·)) : out = Status r now := by
  have h₁ : out.Perm (Status r now) := hperm.trans (Status_perm r now).symm
  haveI : IsAntisymm ServiceStatus (fun x y => x.Addr < y.Addr) :=
    ⟨fun _ _ hab hba => absurd hab (lt_asymm hba)⟩
  have hs₁ : out.Sorted (fun x y => x.Addr < y.Addr) := List.pairwise_map.mp hsorted
  have hs₂ : (Status r now).Sorted (fun x y => x.Addr < y.Addr) :=
    List.pairwise_map.mp (Status_sorted_lt r now)
  exact List.eq_of_perm_of_sorted h₁ hs₁ hs₂

/-- The result of `Status` does not depend on the order in which `range` visits the map. -/
theorem Status_of_perm (r₁ r₂ : ServiceRegistry) (now : Time)
    (hperm : r₁.services.Perm r₂.services) (httl : r₁.ttl = r₂.ttl) :
    Status r₁ now = Status r₂ now := by
  apply Status_unique r₂ now
  · rw [← httl]
    exact (Status_perm r₁ now).trans (hperm.map _)
  · exact Status_sorted_lt r₁ now

theorem runCalls_append (r : ServiceRegistry) (calls : List Call) (c : Call) :
    runCalls r (calls ++ [c]) = applyCall (runCalls r calls) c := by
  simp [runCalls, List.foldl_append]

theorem services_runCalls_new_keys (ttl : Duration) (calls : List Call) (a : GoString) :
    a ∈ keys (runCalls (NewServiceRegistry ttl) calls) ↔ ∃ t, Call.register a t ∈ calls := by
  rw [keys_runCalls]
  simp [keys, NewServiceRegistry]

theorem registeredIn_iff (calls : List Call) (a : GoString) :
    registeredIn calls a = true ↔ ∃ t, Call.register a t ∈ calls := by
  unfold registeredIn
  rw [List.any_eq_true]
  constructor
  · rintro ⟨c, hc, h⟩
    cases c with
    | register b t =>
      simp only [decide_eq_true_eq] at h
      exact ⟨t, h ▸ hc⟩
    | heartbeat b t => simp at h
    | next t => simp at h
  · rintro ⟨t, ht⟩
    exact ⟨Call.register a t, ht, by simp⟩

theorem registeredIn_reverse (calls : List Call) (a : GoString) :
    registeredIn calls.reverse a = registeredIn calls a := by
  simp [registeredIn, List.any_reverse]

/-- The stored time of an address is the specification's `last_seen`, after every history. -/
theorem mapGet_runCalls (ttl : Duration) (calls : List Call) (a : GoString) :
    mapGet (runCalls (NewServiceRegistry ttl) calls).services a = lastSeenSpec calls a := by
  induction calls using List.reverseRecOn with
  | nil => rfl
  | append_singleton calls c ih =>
    rw [runCalls_append]
    unfold lastSeenSpec at ih ⊢
    rw [List.reverse_append, List.reverse_singleton, List.singleton_append]
    cases c with
    | register b t =>
      simp only [applyCall, Register, mapGet_mapSet, lastSeenRev, ih]
      by_cases h : a = b
      · simp [h]
      · have h' : ¬ b = a := fun e => h e.symm
        simp [h, h']
    | heartbeat b t =>
      simp only [applyCall, Heartbeat, lastSeenRev]
      cases hg : mapGet (runCalls (NewServiceRegistry ttl) calls).services b with
      | none =>
        have hnot : registeredIn calls.reverse b = false := by
          rw [registeredIn_reverse]
          have hk := (mapGet_eq_none_iff _ _).mp hg
          have hk' : b ∉ keys (runCalls (NewServiceRegistry ttl) calls) := hk
          rw [services_runCalls_new_keys] at hk'
          cases hr : registeredIn calls b with
          | false => rfl
          | true => exact absurd ((registeredIn_iff calls b).mp hr) hk'
        by_cases h : b = a
        · subst h
          simp [hnot, ih]
        · simp [h, ih]
      | some v =>
        have hyes : registeredIn calls.reverse b = true := by
          rw [registeredIn_reverse, registeredIn_iff, ← services_runCalls_new_keys ttl]
          by_contra hk
          have := (mapGet_eq_none_iff _ _).mpr hk
          rw [this] at hg
          exact Option.noConfusion hg
        simp only [mapGet_mapSet]
        by_cases h : a = b
        · subst h
          simp [hyes]
        · have h' : ¬ b = a := fun e => h e.symm
          simp [h, h', ih]
    | next t =>
      simp only [applyCall, services_NextInstance, lastSeenRev, ih]

/-- C2: after any finite sequence of `Register`, `Heartbeat` (and `NextInstance`) calls on a
newly created registry, the addresses listed by `Status` are strictly ascending, hence without
repetition, and they are exactly the addresses that were passed to `Register`. -/
theorem Status_sorted_and_exactly_registered (ttl : Duration) (calls : List Call) (now : Time) :
    ((Status (runCalls (NewServiceRegistry ttl) calls) now).map (fun s => s.Addr)).Sorted (· < ·) ∧
    ((Status (runCalls (NewServiceRegistry ttl) calls) now).map (fun s => s.Addr)).Nodup ∧
    (∀ a, a ∈ (Status (runCalls (NewServiceRegistry ttl) calls) now).map (fun s => s.Addr) ↔
      ∃ t, Call.register a t ∈ calls) := by
  refine ⟨Status_sorted_lt _ now, Status_addrs_nodup _ now, ?_⟩
  intro a
  rw [(Status_addrs_perm _ now).mem_iff]
  exact services_runCalls_new_keys ttl calls a

/-- C3: after any history on a newly created registry, for every address `a` that was
registered and every query time `now`, the specification's `last_seen` of `a` is defined, say
`t`, `Status` lists `a` once, and the `Alive` flag it reports for `a` is true exactly when
`now - t ≤ ttl`: alive at age exactly `ttl`, dead at any greater age. -/
theorem Status_alive_iff_age_le_ttl (ttl : Duration) (calls : List Call) (now : Time)
    (a : GoString) (hreg : ∃ t₀, Call.register a t₀ ∈ calls) :
    ∃ t, lastSeenSpec calls a = some t ∧
      ({ Addr := a, Alive := decide (now - t ≤ ttl) } : ServiceStatus) ∈
        Status (runCalls (NewServiceRegistry ttl) calls) now ∧
      (∀ s ∈ Status (runCalls (NewServiceRegistry ttl) calls) now, s.Addr = a →
        (s.Alive = true ↔ now - t ≤ ttl)) ∧
      (∀ s ∈ Status (runCalls (NewServiceRegistry ttl) calls) now, s.Addr = a →
        now - t = ttl → s.Alive = true) ∧
      (∀ s ∈ Status (runCalls (NewServiceRegistry ttl) calls) now, s.Addr = a →
        ttl < now - t → s.Alive = false) := by
  have hkey : a ∈ keys (runCalls (NewServiceRegistry ttl) calls) :=
    (services_runCalls_new_keys ttl calls a).mpr hreg
  cases hg : mapGet (runCalls (NewServiceRegistry ttl) calls).services a with
  | none => exact absurd hkey ((mapGet_eq_none_iff _ _).mp hg)
  | some t =>
    have hflag : ∀ s ∈ Status (runCalls (NewServiceRegistry ttl) calls) now, s.Addr = a →
        s.Alive = decide (now - t ≤ ttl) := by
      intro s hs hsa
      obtain ⟨t', ht', hal⟩ := (mem_Status _ now s).mp hs
      rw [hsa, hg] at ht'
      rw [ttl_runCalls] at hal
      cases ht'
      exact hal
    refine ⟨t, (mapGet_runCalls ttl calls a).symm.trans hg, ?_, ?_, ?_, ?_⟩
    · rw [mem_Status]
      exact ⟨t, hg, by rw [ttl_runCalls]; rfl⟩
    · intro s hs hsa
      rw [hflag s hs hsa]
      exact decide_eq_true_iff
    · intro s hs hsa hage
      rw [hflag s hs hsa]
      exact decide_eq_true (le_of_eq hage)
    · intro s hs hsa hage
      rw [hflag s hs hsa]
      exact decide_eq_false (not_le.mpr hage)

/-- An instance of C3, the heartbeat test of the repository: ttl 50, `[1]` registered at 0 and
refreshed at 30, queried at 60. -/
theorem Status_alive_iff_age_le_ttl_witness :
    (∃ t₀, Call.register [1] t₀ ∈ [Call.register [1] 0, Call.heartbeat [1] 30]) ∧
    ∃ t, lastSeenSpec [Call.register [1] 0, Call.heartbeat [1] 30] [1] = some t ∧
      ({ Addr := [1], Alive := decide ((60 : Int) - t ≤ 50) } : ServiceStatus) ∈
        Status (runCalls (NewServiceRegistry 50)
          [Call.register [1] 0, Call.heartbeat [1] 30]) 60 ∧
      (∀ s ∈ Status (runCalls (NewServiceRegistry 50)
          [Call.register [1] 0, Call.heartbeat [1] 30]) 60, s.Addr = [1] →
        (s.Alive = true ↔ (60 : Int) - t ≤ 50)) ∧
      (∀ s ∈ Status (runCalls (NewServiceRegistry 50)
          [Call.register [1] 0, Call.heartbeat [1] 30]) 60, s.Addr = [1] →
        (60 : Int) - t = 50 → s.Alive = true) ∧
      (∀ s ∈ Status (runCalls (NewServiceRegistry 50)
          [Call.register [1] 0, Call.heartbeat [1] 30]) 60, s.Addr = [1] →
        50 < (60 : Int) - t → s.Alive = false) :=
  ⟨⟨0, by decide⟩,
    Status_alive_iff_age_le_ttl 50 [Call.register [1] 0, Call.heartbeat [1] 30] 60 [1]
      ⟨0, by decide⟩⟩

theorem validAddrs_sorted (r : ServiceRegistry) (now : Time) :
    (validAddrs r now).Sorted (· < ·) := by
  have h : (Status r now).Pairwise (fun x y => x.Addr < y.Addr) :=
    List.pairwise_map.mp (Status_sorted_lt r now)
  exact List.pairwise_map.mpr (h.filter _)

theorem mem_validAddrs (r : ServiceRegistry) (now : Time) (a : GoString) :
    a ∈ validAddrs r now ↔ IsAlive r now a := by
  unfold validAddrs IsAlive
  simp only [List.mem_map, List.mem_filter]
  constructor
  · rintro ⟨s, ⟨hs, halive⟩, rfl⟩
    obtain ⟨t, ht, hal⟩ := (mem_Status r now s).mp hs
    rw [hal] at halive
    exact ⟨t, ht, of_decide_eq_true halive⟩
  · rintro ⟨t, ht, hle⟩
    refine ⟨{ Addr := a, Alive := decide (now - t ≤ r.ttl) }, ⟨?_, decide_eq_true hle⟩, rfl⟩
    exact (mem_Status r now _).mpr ⟨t, ht, rfl⟩

/-- The slice `validAddrs` is the ascending list of the alive addresses. -/
theorem validAddrs_eq_of_alive (r : ServiceRegistry) (now : Time) (L : List GoString)
    (hL : L.Sorted (· < ·)) (h : ∀ a, IsAlive r now a ↔ a ∈ L) : validAddrs r now = L := by
  have hs := validAddrs_sorted r now
  have hperm : (validAddrs r now).Perm L :=
    (List.perm_ext_iff_of_nodup hs.nodup hL.nodup).mpr
      (fun a => (mem_validAddrs r now a).trans (h a))
  exact List.eq_of_perm_of_sorted hperm hs hL

theorem validAddrs_congr (r r₁ : ServiceRegistry) (now : Time)
    (hs : r₁.services = r.services) (ht : r₁.ttl = r.ttl) :
    validAddrs r₁ now = validAddrs r now := by
  unfold validAddrs Status
  rw [hs, ht]

theorem cursorStart_lt (idx count : Nat) (h : 0 < count) : cursorStart idx count < count := by
  unfold cursorStart
  split
  · exact h
  · omega

theorem cursorStart_of_lt (idx count : Nat) (h : idx < count) : cursorStart idx count = idx := by
  unfold cursorStart
  split
  · omega
  · rfl

theorem NextInstance_empty (r : ServiceRegistry) (now : Time) (h : validAddrs r now = []) :
    NextInstance r now = ([], r) := by
  unfold NextInstance
  simp [h]

theorem NextInstance_fst (r : ServiceRegistry) (now : Time) (h : validAddrs r now ≠ []) :
    (NextInstance r now).1 =
      (validAddrs r now).getD (cursorStart r.idx (validAddrs r now).length) [] := by
  have hlen : (validAddrs r now).length ≠ 0 := fun e => h (List.length_eq_zero.mp e)
  unfold NextInstance cursorStart
  simp only [hlen, if_false]

theorem NextInstance_idx (r : ServiceRegistry) (now : Time) (h : validAddrs r now ≠ []) :
    (NextInstance r now).2.idx =
      (cursorStart r.idx (validAddrs r now).length + 1) % (validAddrs r now).length := by
  have hlen : (validAddrs r now).length ≠ 0 := fun e => h (List.length_eq_zero.mp e)
  unfold NextInstance cursorStart
  simp only [hlen, if_false]

/-- The cursor is never changed by `Register` and `Heartbeat`. -/
theorem idx_Register (r : ServiceRegistry) (addr : GoString) (now : Time) :
    (Register r addr now).idx = r.idx := rfl

theorem idx_Heartbeat (r : ServiceRegistry) (addr : GoString) (now : Time) :
    (Heartbeat r addr now).idx = r.idx := by
  unfold Heartbeat
  split <;> rfl

/-- Closed form of consecutive calls over a stable alive list `L`: call `i` returns the element
of `L` at position `(c + i) mod K`, where `c` is the cursor after the first range check. -/
theorem nextMany_stable (L : List GoString) (hne : L ≠ []) (times : List Time) :
    ∀ r : ServiceRegistry, (∀ now ∈ times, validAddrs r now = L) →
      (nextMany r times).1 = (List.range times.length).map
        (fun i => L.getD ((cursorStart r.idx L.length + i) % L.length) []) := by
  have hK : 0 < L.length := List.length_pos.mpr hne
  induction times with
  | nil => intro r _; rfl
  | cons now rest ih =>
    intro r hst
    have hv : validAddrs r now = L := hst now (List.mem_cons_self _ _)
    have hvne : validAddrs r now ≠ [] := by rw [hv]; exact hne
    have hc := cursorStart_lt r.idx L.length hK
    have hst₁ : ∀ now₁ ∈ rest, validAddrs (NextInstance r now).2 now₁ = L := by
      intro now₁ h₁
      rw [validAddrs_congr r _ now₁ (services_NextInstance r now) (ttl_NextInstance r now)]
      exact hst now₁ (List.mem_cons_of_mem _ h₁)
    have hidx : (NextInstance r now).2.idx = (cursorStart r.idx L.length + 1) % L.length := by
      rw [NextInstance_idx r now hvne, hv]
    have hcs : cursorStart (NextInstance r now).2.idx L.length =
        (cursorStart r.idx L.length + 1) % L.length := by
      rw [hidx]
      exact cursorStart_of_lt _ _ (Nat.mod_lt _ hK)
    simp only [nextMany, List.length_cons, List.range_succ_eq_map, List.map_cons, List.map_map]
    rw [ih _ hst₁, hcs, NextInstance_fst r now hvne, hv]
    congr 1
    · rw [Nat.add_zero, Nat.mod_eq_of_lt hc]
    · apply List.map_congr_left
      intro i _
      simp only [Function.comp, Nat.succ_eq_add_one]
      congr 1
      rw [Nat.mod_add_mod]
      congr 1
      omega

theorem some_getD_of_lt (L : List GoString) (k : Nat) (hk : k < L.length) :
    some (L.getD k []) = L[k]? := by
  rw [List.getD_eq_getElem L [] hk, List.getElem?_eq_getElem hk]

theorem nextMany_stable_get (L : List GoString) (hne : L ≠ []) (times : List Time)
    (r : ServiceRegistry) (hst : ∀ now ∈ times, validAddrs r now = L) (i : Nat)
    (hi : i < times.length) :
    (nextMany r times).1[i]? = L[(cursorStart r.idx L.length + i) % L.length]? := by
  have hK : 0 < L.length := List.length_pos.mpr hne
  rw [nextMany_stable L hne times r hst, List.getElem?_map, List.getElem?_range hi]
  exact some_getD_of_lt L _ (Nat.mod_lt _ hK)

/-- C1: while the alive addresses are a fixed non-empty set, listed ascending as `L` with
`K = L.length`, consecutive `NextInstance` calls walk `L` cyclically from the cursor: call `i`
returns `L[(c + i) mod K]`; call `i + K` returns what call `i` returned; any `K` consecutive
calls return a rotation of `L`, hence each alive address exactly once. -/
theorem NextInstance_round_robin (r : ServiceRegistry) (times : List Time) (L : List GoString)
    (hL : L.Sorted (· < ·)) (hne : L ≠ [])
    (hstable : ∀ now ∈ times, ∀ a, IsAlive r now a ↔ a ∈ L) :
    (∀ i, i < times.length →
      (nextMany r times).1[i]? = L[(cursorStart r.idx L.length + i) % L.length]?) ∧
    (∀ i, i + L.length < times.length →
      (nextMany r times).1[i + L.length]? = (nextMany r times).1[i]?) ∧
    (∀ i, i + L.length ≤ times.length →
      ((nextMany r times).1.drop i).take L.length =
        L.rotate ((cursorStart r.idx L.length + i) % L.length)) ∧
    (∀ i, i + L.length ≤ times.length →
      (((nextMany r times).1.drop i).take L.length).Perm L ∧
      (((nextMany r times).1.drop i).take L.length).Nodup) := by
  have hK : 0 < L.length := List.length_pos.mpr hne
  have hst : ∀ now ∈ times, validAddrs r now = L := fun now hnow =>
    validAddrs_eq_of_alive r now L hL (hstable now hnow)
  have hget := nextMany_stable_get L hne times r hst
  have hrot : ∀ i, i + L.length ≤ times.length →
      ((nextMany r times).1.drop i).take L.length =
        L.rotate ((cursorStart r.idx L.length + i) % L.length) := by
    intro i hi
    apply List.ext_getElem?
    intro j
    by_cases hj : j < L.length
    · rw [List.getElem?_take_of_lt hj, List.getElem?_drop, hget (i + j) (by omega),
        List.getElem?_rotate hj]
      congr 1
      rw [Nat.add_mod_mod]
      congr 1
      omega
    · have h₁ : (List.take L.length (List.drop i (nextMany r times).1)).length ≤ j := by
        rw [List.length_take]
        omega
      have h₂ : (L.rotate ((cursorStart r.idx L.length + i) % L.length)).length ≤ j := by
        rw [List.length_rotate]
        omega
      rw [List.getElem?_eq_none h₁, List.getElem?_eq_none h₂]
  refine ⟨hget, ?_, hrot, ?_⟩
  · intro i hi
    rw [hget (i + L.length) hi, hget i (by omega)]
    congr 1
    rw [← Nat.add_assoc, Nat.add_mod_right]
  · intro i hi
    rw [hrot i hi]
    exact ⟨List.rotate_perm L _, (List.rotate_perm L _).nodup_iff.mpr hL.nodup⟩

/-- Scenario A, an instance of C1: on a new registry with ttl one second, "a", "b", "c"
registered at 0, 1, 2 and six calls at 10 .. 15, the calls return a, b, c, a, b, c. -/
theorem NextInstance_round_robin_witness :
    (nextMany (runCalls (NewServiceRegistry 1000000000)
        [Call.register [97] 0, Call.register [98] 1, Call.register [99] 2])
        [10, 11, 12, 13, 14, 15]).1 = [[97], [98], [99], [97], [98], [99]] ∧
    (∀ i, i + 3 ≤ 6 →
      (((nextMany (runCalls (NewServiceRegistry 1000000000)
        [Call.register [97] 0, Call.register [98] 1, Call.register [99] 2])
        [10, 11, 12, 13, 14, 15]).1.drop i).take 3).Perm [[97], [98], [99]] ∧
      (((nextMany (runCalls (NewServiceRegistry 1000000000)
        [Call.register [97] 0, Call.register [98] 1, Call.register [99] 2])
        [10, 11, 12, 13, 14, 15]).1.drop i).take 3).Nodup) := by
  refine ⟨by decide, ?_⟩
  have hL : ([[97], [98], [99]] : List GoString).Sorted (· < ·) := by decide
  have hst : ∀ now ∈ ([10, 11, 12, 13, 14, 15] : List Time), ∀ a,
      IsAlive (runCalls (NewServiceRegistry 1000000000)
        [Call.register [97] 0, Call.register [98] 1, Call.register [99] 2]) now a ↔
      a ∈ ([[97], [98], [99]] : List GoString) := by
    intro now hnow a
    rw [← mem_validAddrs]
    have hv : validAddrs (runCalls (NewServiceRegistry 1000000000)
        [Call.register [97] 0, Call.register [98] 1, Call.register [99] 2]) now =
        [[97], [98], [99]] := by
      simp only [List.mem_cons, List.mem_singleton, List.not_mem_nil, or_false] at hnow
      rcases hnow with h | h | h | h | h | h <;> subst h <;> decide
    rw [hv]
  exact (NextInstance_round_robin _ [10, 11, 12, 13, 14, 15] [[97], [98], [99]] hL
    (by decide) hst).2.2.2

/-- C4: whatever the cursor is, when no address is alive `NextInstance` returns the empty string
and leaves the registry as it was; and if, after any further calls, exactly one address `x` is
alive, the next `NextInstance` returns `x`. -/
theorem NextInstance_empty_then_single (r : ServiceRegistry) (now : Time)
    (hnone : ∀ a, ¬ IsAlive r now a) :
    (NextInstance r now).1 = [] ∧ (NextInstance r now).2 = r ∧
    ∀ (calls : List Call) (now₁ : Time) (x : GoString),
      (∀ a, IsAlive (runCalls (NextInstance r now).2 calls) now₁ a ↔ a = x) →
      (NextInstance (runCalls (NextInstance r now).2 calls) now₁).1 = x := by
  have hv : validAddrs r now = [] :=
    validAddrs_eq_of_alive r now [] List.sorted_nil (fun a => by simpa using hnone a)
  refine ⟨by rw [NextInstance_empty r now hv], by rw [NextInstance_empty r now hv], ?_⟩
  intro calls now₁ x hx
  have hv₁ : validAddrs (runCalls (NextInstance r now).2 calls) now₁ = [x] :=
    validAddrs_eq_of_alive _ now₁ [x] (List.sorted_singleton x)
      (fun a => by simpa using hx a)
  rw [NextInstance_fst _ now₁ (by rw [hv₁]; exact List.cons_ne_nil _ _), hv₁]
  have hc := cursorStart_lt (runCalls (NextInstance r now).2 calls).idx 1 Nat.one_pos
  have hc0 : cursorStart (runCalls (NextInstance r now).2 calls).idx [x].length = 0 := by
    simp only [List.length_singleton]
    omega
  rw [hc0]
  rfl

/-- An instance of C4, the test `TestNextInstanceOnlyAlive`: ttl 10, "a" and "b" registered at
0, one call at 1 leaves the cursor at 1; at 15 nothing is alive; "c" is registered at 16 and the
call at 17 returns "c". -/
theorem NextInstance_empty_then_single_witness :
    (runCalls (NewServiceRegistry 10)
      [Call.register [97] 0, Call.register [98] 0, Call.next 1]).idx = 1 ∧
    (NextInstance (runCalls (NewServiceRegistry 10)
      [Call.register [97] 0, Call.register [98] 0, Call.next 1]) 15).1 = [] ∧
    (NextInstance (runCalls (NextInstance (runCalls (NewServiceRegistry 10)
      [Call.register [97] 0, Call.register [98] 0, Call.next 1]) 15).2
      [Call.register [99] 16]) 17).1 = [99] := by
  have hnone : ∀ a, ¬ IsAlive (runCalls (NewServiceRegistry 10)
      [Call.register [97] 0, Call.register [98] 0, Call.next 1]) 15 a := by
    intro a
    rw [← mem_validAddrs]
    have hv : validAddrs (runCalls (NewServiceRegistry 10)
      [Call.register [97] 0, Call.register [98] 0, Call.next 1]) 15 = [] := by decide
    rw [hv]
    exact List.not_mem_nil a
  have h := NextInstance_empty_then_single _ 15 hnone
  refine ⟨by decide, h.1, h.2.2 [Call.register [99] 16] 17 [99] ?_⟩
  intro a
  rw [← mem_validAddrs]
  have hv : validAddrs (runCalls (NextInstance (runCalls (NewServiceRegistry 10)
      [Call.register [97] 0, Call.register [98] 0, Call.next 1]) 15).2
      [Call.register [99] 16]) 17 = [[99]] := by decide
  rw [hv]
  exact List.mem_singleton

theorem Heartbeat_of_not_mem (r : ServiceRegistry) (addr : GoString) (now : Time)
    (h : addr ∉ keys r) : Heartbeat r addr now = r := by
  unfold Heartbeat
  rw [(mapGet_eq_none_iff _ _).mpr h]

/-- C8: starting from any registry state in which `addr` has no entry, and after any calls none
of which registers `addr`, `Heartbeat addr` returns the registry unchanged (same mapping, same
cursor, same ttl); so `addr` is in no later `Status`, and `Status` and `NextInstance` answer as
they would have without the heartbeat. -/
theorem Heartbeat_unregistered_is_noop (r : ServiceRegistry) (calls : List Call)
    (addr : GoString) (now : Time) (habsent : addr ∉ keys r)
    (hnever : ∀ t, Call.register addr t ∉ calls) :
    Heartbeat (runCalls r calls) addr now = runCalls r calls ∧
    (Heartbeat (runCalls r calls) addr now).services = (runCalls r calls).services ∧
    (Heartbeat (runCalls r calls) addr now).idx = (runCalls r calls).idx ∧
    (∀ now₁, ∀ s ∈ Status (Heartbeat (runCalls r calls) addr now) now₁, s.Addr ≠ addr) ∧
    (∀ now₁, Status (Heartbeat (runCalls r calls) addr now) now₁ =
      Status (runCalls r calls) now₁) ∧
    (∀ now₁, NextInstance (Heartbeat (runCalls r calls) addr now) now₁ =
      NextInstance (runCalls r calls) now₁) := by
  have hk : addr ∉ keys (runCalls r calls) := by
    rw [keys_runCalls]
    rintro (h | ⟨t, ht⟩)
    · exact habsent h
    · exact hnever t ht
  have heq := Heartbeat_of_not_mem (runCalls r calls) addr now hk
  refine ⟨heq, by rw [heq], by rw [heq], ?_, fun now₁ => by rw [heq], fun now₁ => by rw [heq]⟩
  intro now₁ s hs hsa
  rw [heq] at hs
  apply hk
  rw [← (Status_addrs_perm (runCalls r calls) now₁).mem_iff]
  exact List.mem_map.mpr ⟨s, hs, hsa⟩

/-- An instance of C8: "a" registered at 0 on a new registry with ttl 50, a heartbeat of the
unknown "b" at 5. -/
theorem Heartbeat_unregistered_is_noop_witness :
    Status (Heartbeat (runCalls (NewServiceRegistry 50) [Call.register [97] 0]) [98] 5) 7 =
      [{ Addr := [97], Alive := true }] ∧
    Heartbeat (runCalls (NewServiceRegistry 50) [Call.register [97] 0]) [98] 5 =
      runCalls (NewServiceRegistry 50) [Call.register [97] 0] :=
  ⟨by decide,
    (Heartbeat_unregistered_is_noop (NewServiceRegistry 50) [Call.register [97] 0] [98] 5
      (by decide) (fun t ht => by simp at ht)).1⟩

/-- A call that runs with no other goroutine in between does what `NextInstance` does: it
returns the same address and leaves the same registry, and it does not panic. -/
theorem runAlone_eq_NextInstance (r : ServiceRegistry) (now : Time) :
    (runAlone r now).2.pc = Pc.returned ∧
    (runAlone r now).2.addr = (NextInstance r now).1 ∧
    (runAlone r now).1 = (NextInstance r now).2 := by
  by_cases hv : validAddrs r now = []
  · have hlen : (validAddrs r now).length = 0 := by rw [hv]; rfl
    rw [NextInstance_empty r now hv]
    have h₁ : stepNext r (NextCall.start now) =
        (r, (⟨now, Pc.returned, validAddrs r now, [], 0⟩ : NextCall)) := by
      simp only [stepNext, NextCall.start, hlen, if_true]
    have h₂ : stepNext r (⟨now, Pc.returned, validAddrs r now, [], 0⟩ : NextCall) =
        (r, (⟨now, Pc.returned, validAddrs r now, [], 0⟩ : NextCall)) := rfl
    simp only [runAlone, h₁, h₂, and_self]
  · have hlen : (validAddrs r now).length ≠ 0 := fun e => hv (List.length_eq_zero.mp e)
    have hpos : 0 < (validAddrs r now).length := Nat.pos_of_ne_zero hlen
    have hfst := NextInstance_fst r now hv
    have hsnd : (NextInstance r now).2 =
        { r with idx := (cursorStart r.idx (validAddrs r now).length + 1) %
          (validAddrs r now).length } := by
      unfold NextInstance cursorStart
      simp only [hlen, if_false]
    rw [hfst, hsnd]
    have h₁ : stepNext r (NextCall.start now) =
        (r, (⟨now, Pc.check, validAddrs r now, [], 0⟩ : NextCall)) := by
      simp only [stepNext, NextCall.start, hlen, if_false]
    generalize validAddrs r now = V at hlen hpos h₁ ⊢
    by_cases hge : r.idx ≥ V.length
    · have hcs : cursorStart r.idx V.length = 0 := by
        unfold cursorStart; simp only [hge, if_true]
      have h0 : V[0]? = some (V.getD 0 []) := (some_getD_of_lt V 0 hpos).symm
      have h₂ : stepNext r (⟨now, Pc.check, V, [], 0⟩ : NextCall) =
          (r, (⟨now, Pc.reset, V, [], 0⟩ : NextCall)) := by
        simp only [stepNext, hge, if_true]
      have h₃ : stepNext r (⟨now, Pc.reset, V, [], 0⟩ : NextCall) =
          ({ r with idx := 0 },
            (⟨now, Pc.index, V, [], 0⟩ : NextCall)) := rfl
      have h₄ : stepNext { r with idx := 0 }
          (⟨now, Pc.index, V, [], 0⟩ : NextCall) =
          ({ r with idx := 0 },
            (⟨now, Pc.load, V, V.getD 0 [], 0⟩ : NextCall)) := by
        simp only [stepNext, h0]
      have h₅ : stepNext { r with idx := 0 }
          (⟨now, Pc.load, V, V.getD 0 [], 0⟩ : NextCall) =
          ({ r with idx := 0 },
            (⟨now, Pc.store, V, V.getD 0 [], (0 + 1) % V.length⟩ : NextCall)) := rfl
      have h₆ : stepNext { r with idx := 0 }
          (⟨now, Pc.store, V, V.getD 0 [], (0 + 1) % V.length⟩ : NextCall) =
          ({ r with idx := (0 + 1) % V.length },
            (⟨now, Pc.returned, V, V.getD 0 [], (0 + 1) % V.length⟩ : NextCall)) := rfl
      rw [hcs]
      simp only [runAlone, h₁, h₂, h₃, h₄, h₅, h₆, and_self]
    · have hlt : r.idx < V.length := not_le.mp hge
      have hcs : cursorStart r.idx V.length = r.idx := cursorStart_of_lt _ _ hlt
      have hi : V[r.idx]? = some (V.getD r.idx []) := (some_getD_of_lt V r.idx hlt).symm
      have h₂ : stepNext r (⟨now, Pc.check, V, [], 0⟩ : NextCall) =
          (r, (⟨now, Pc.index, V, [], 0⟩ : NextCall)) := by
        simp only [stepNext, hge, if_false]
      have h₃ : stepNext r (⟨now, Pc.index, V, [], 0⟩ : NextCall) =
          (r, (⟨now, Pc.load, V, V.getD r.idx [], 0⟩ : NextCall)) := by
        simp only [stepNext, hi]
      have h₄ : stepNext r
          (⟨now, Pc.load, V, V.getD r.idx [], 0⟩ : NextCall) =
          (r, (⟨now, Pc.store, V, V.getD r.idx [], (r.idx + 1) % V.length⟩ : NextCall)) := rfl
      have h₅ : stepNext r
          (⟨now, Pc.store, V, V.getD r.idx [], (r.idx + 1) % V.length⟩ : NextCall) =
          ({ r with idx := (r.idx + 1) % V.length },
            (⟨now, Pc.returned, V, V.getD r.idx [], (r.idx + 1) % V.length⟩ : NextCall)) := rfl
      have h₆ : stepNext { r with idx := (r.idx + 1) % V.length }
          (⟨now, Pc.returned, V, V.getD r.idx [], (r.idx + 1) % V.length⟩ : NextCall) =
          ({ r with idx := (r.idx + 1) % V.length },
            (⟨now, Pc.returned, V, V.getD r.idx [], (r.idx + 1) % V.length⟩ : NextCall)) := rfl
      rw [hcs]
      simp only [runAlone, h₁, h₂, h₃, h₄, h₅, h₆, and_self]

/-- C10, where the code departs from it: `NextInstance` does not hold the exclusive lock while
it reads and writes the cursor, so calls interleave. With "a" and "b" alive and the cursor at
0, two calls that alternate step by step both return "a" and leave the cursor at 1, one advance
lost, whereas one call after the other returns "a" then "b" and leaves the cursor at 0. With "a"
alone alive, a call that has passed its range check, then a `Register` of "b" and a complete
second call that writes 1 to the cursor, the first call indexes its one-element list at 1 and
panics. -/
theorem NextInstance_calls_interleave :
    ((twoCallers.run [0, 1, 0, 1, 0, 1, 0, 1, 0, 1]).goroutines =
        [Goroutine.nextInstance
          { now := 5, pc := Pc.returned, valid := [[97], [98]], addr := [97], next := 1 },
         Goroutine.nextInstance
          { now := 5, pc := Pc.returned, valid := [[97], [98]], addr := [97], next := 1 }] ∧
      (twoCallers.run [0, 1, 0, 1, 0, 1, 0, 1, 0, 1]).reg.idx = 1) ∧
    ((twoCallers.run [0, 0, 0, 0, 0, 1, 1, 1, 1, 1]).goroutines =
        [Goroutine.nextInstance
          { now := 5, pc := Pc.returned, valid := [[97], [98]], addr := [97], next := 1 },
         Goroutine.nextInstance
          { now := 5, pc := Pc.returned, valid := [[97], [98]], addr := [98], next := 0 }] ∧
      (twoCallers.run [0, 0, 0, 0, 0, 1, 1, 1, 1, 1]).reg.idx = 0) ∧
    ((callersAndRegister.run [0, 0, 1, 2, 2, 2, 2, 2, 0]).goroutines =
        [Goroutine.nextInstance
          { now := 5, pc := Pc.panicked, valid := [[97]], addr := [], next := 0 },
         Goroutine.register [98] 6 true,
         Goroutine.nextInstance
          { now := 7, pc := Pc.returned, valid := [[97], [98]], addr := [97], next := 1 }] ∧
      (callersAndRegister.run [0, 0, 1, 2, 2, 2, 2, 2, 0]).reg.idx = 1) := by
  refine ⟨⟨by decide, by decide⟩, ⟨by decide, by decide⟩, ⟨by decide, by decide⟩⟩

end registry

/-! ## Properties of the gateway -/

namespace services

open registry

theorem retryLoop_zero (f : Gateway) (c : HttpClient) (w : World) (ctx : Context)
    (target : GoString) (attempt : Nat) (now : Time) (backoff : Duration)
    (resp : Option Response) :
    retryLoop f c w ctx target 0 attempt now backoff resp =
      { resp := resp, err := none, issued := [], sleeps := [], finish := now } := rfl

theorem retryLoop_ctxErr (f : Gateway) (c : HttpClient) (w : World) (ctx : Context)
    (target : GoString) (n attempt : Nat) (now : Time) (backoff : Duration)
    (resp : Option Response) (e : CtxErr) (he : ctx.Err now = some e) :
    retryLoop f c w ctx target (n + 1) attempt now backoff resp =
      { resp := none, err := some (Err.ctx e), issued := [], sleeps := [], finish := now } := by
  simp only [retryLoop, he]

theorem retryLoop_reqErr (f : Gateway) (c : HttpClient) (w : World) (ctx : Context)
    (target : GoString) (n attempt : Nat) (now : Time) (backoff : Duration)
    (resp : Option Response) (e : Nat) (hctx : ctx.Err now = none)
    (hreq : w.NewRequest (target ++ dataPath) = some e) :
    retryLoop f c w ctx target (n + 1) attempt now backoff resp =
      { resp := none, err := some (Err.request e), issued := [], sleeps := [], finish := now } := by
  simp only [retryLoop, hctx, hreq]

theorem retryLoop_fail_last (f : Gateway) (c : HttpClient) (w : World) (ctx : Context)
    (target : GoString) (n attempt : Nat) (now : Time) (backoff : Duration)
    (resp : Option Response) (dur : Duration) (e : Nat) (hctx : ctx.Err now = none)
    (hreq : w.NewRequest (target ++ dataPath) = none)
    (hdo : c.Do (target ++ dataPath) attempt now = (dur, DoResult.fail e))
    (hlast : ¬ (attempt : Int) < f.MaxRetries) :
    retryLoop f c w ctx target (n + 1) attempt now backoff resp =
      { resp := none, err := some (Err.transport e), issued := [now], sleeps := [],
        finish := now + dur } := by
  simp only [retryLoop, hctx, hreq, hdo, hlast, if_false]

theorem retryLoop_fail_cut (f : Gateway) (c : HttpClient) (w : World) (ctx : Context)
    (target : GoString) (n attempt : Nat) (now : Time) (backoff : Duration)
    (resp : Option Response) (dur : Duration) (e : Nat) (t : Time) (ce : CtxErr)
    (hctx : ctx.Err now = none) (hreq : w.NewRequest (target ++ dataPath) = none)
    (hdo : c.Do (target ++ dataPath) attempt now = (dur, DoResult.fail e))
    (hmore : (attempt : Int) < f.MaxRetries)
    (hwait : ctx.wait (now + dur) backoff = (t, some ce)) :
    retryLoop f c w ctx target (n + 1) attempt now backoff resp =
      { resp := none, err := some (Err.ctx ce), issued := [now], sleeps := [backoff],
        finish := t } := by
  simp only [retryLoop, hctx, hreq, hdo, hmore, if_true, hwait]

theorem retryLoop_fail_retry (f : Gateway) (c : HttpClient) (w : World) (ctx : Context)
    (target : GoString) (n attempt : Nat) (now : Time) (backoff : Duration)
    (resp : Option Response) (dur : Duration) (e : Nat) (t : Time)
    (hctx : ctx.Err now = none) (hreq : w.NewRequest (target ++ dataPath) = none)
    (hdo : c.Do (target ++ dataPath) attempt now = (dur, DoResult.fail e))
    (hmore : (attempt : Int) < f.MaxRetries)
    (hwait : ctx.wait (now + dur) backoff = (t, none)) :
    retryLoop f c w ctx target (n + 1) attempt now backoff resp =
      Run.after now backoff
        (retryLoop f c w ctx target n (attempt + 1) t (mulBackoff w.OutOfRange backoff) none) := by
  simp only [retryLoop, hctx, hreq, hdo, hmore, if_true, hwait]

theorem retryLoop_ok_return (f : Gateway) (c : HttpClient) (w : World) (ctx : Context)
    (target : GoString) (n attempt : Nat) (now : Time) (backoff : Duration)
    (resp : Option Response) (dur : Duration) (got : Response) (hctx : ctx.Err now = none)
    (hreq : w.NewRequest (target ++ dataPath) = none)
    (hdo : c.Do (target ++ dataPath) attempt now = (dur, DoResult.ok got))
    (hstop : ¬ (isRetryableStatus got.StatusCode = true ∧ (attempt : Int) < f.MaxRetries)) :
    retryLoop f c w ctx target (n + 1) attempt now backoff resp =
      { resp := some got, err := none, issued := [now], sleeps := [], finish := now + dur } := by
  simp only [retryLoop, hctx, hreq, hdo, hstop, if_false]

theorem retryLoop_ok_cut (f : Gateway) (c : HttpClient) (w : World) (ctx : Context)
    (target : GoString) (n attempt : Nat) (now : Time) (backoff : Duration)
    (resp : Option Response) (dur : Duration) (got : Response) (t : Time) (ce : CtxErr)
    (hctx : ctx.Err now = none) (hreq : w.NewRequest (target ++ dataPath) = none)
    (hdo : c.Do (target ++ dataPath) attempt now = (dur, DoResult.ok got))
    (hretry : isRetryableStatus got.StatusCode = true) (hmore : (attempt : Int) < f.MaxRetries)
    (hwait : ctx.wait (now + dur) backoff = (t, some ce)) :
    retryLoop f c w ctx target (n + 1) attempt now backoff resp =
      { resp := none, err := some (Err.ctx ce), issued := [now], sleeps := [backoff],
        finish := t } := by
  simp only [retryLoop, hctx, hreq, hdo, hretry, hmore, and_self, if_true, hwait]

theorem retryLoop_ok_retry (f : Gateway) (c : HttpClient) (w : World) (ctx : Context)
    (target : GoString) (n attempt : Nat) (now : Time) (backoff : Duration)
    (resp : Option Response) (dur : Duration) (got : Response) (t : Time)
    (hctx : ctx.Err now = none) (hreq : w.NewRequest (target ++ dataPath) = none)
    (hdo : c.Do (target ++ dataPath) attempt now = (dur, DoResult.ok got))
    (hretry : isRetryableStatus got.StatusCode = true) (hmore : (attempt : Int) < f.MaxRetries)
    (hwait : ctx.wait (now + dur) backoff = (t, none)) :
    retryLoop f c w ctx target (n + 1) attempt now backoff resp =
      Run.after now backoff
        (retryLoop f c w ctx target n (attempt + 1) t (mulBackoff w.OutOfRange backoff) (some got)) := by
  simp only [retryLoop, hctx, hreq, hdo, hretry, hmore, and_self, if_true, hwait]

theorem retryLoop_cases (f : Gateway) (c : HttpClient) (w : World) (ctx : Context)
    (target : GoString) (n attempt : Nat) (now : Time) (backoff : Duration)
    (resp : Option Response) :
    Iter f c w ctx target n attempt now backoff
      (retryLoop f c w ctx target (n + 1) attempt now backoff resp) := by
  cases hctx : ctx.Err now with
  | some e =>
    rw [retryLoop_ctxErr f c w ctx target n attempt now backoff resp e hctx]
    exact Iter.stop ⟨rfl, rfl, rfl, by simp⟩
  | none =>
    cases hreq : w.NewRequest (target ++ dataPath) with
    | some e =>
      rw [retryLoop_reqErr f c w ctx target n attempt now backoff resp e hctx hreq]
      exact Iter.stop ⟨rfl, rfl, rfl, by simp⟩
    | none =>
      rcases hdo : c.Do (target ++ dataPath) attempt now with ⟨dur, res⟩
      rcases hwait : ctx.wait (now + dur) backoff with ⟨t, cut⟩
      cases res with
      | fail e =>
        by_cases hmore : (attempt : Int) < f.MaxRetries
        · cases cut with
          | none =>
            rw [retryLoop_fail_retry f c w ctx target n attempt now backoff resp dur e t
              hctx hreq hdo hmore hwait]
            exact Iter.next hctx hmore t none rfl
          | some ce =>
            rw [retryLoop_fail_cut f c w ctx target n attempt now backoff resp dur e t ce
              hctx hreq hdo hmore hwait]
            exact Iter.last hctx ⟨rfl, Or.inr ⟨rfl, hmore⟩, Or.inl ⟨rfl, by simp⟩⟩
        · rw [retryLoop_fail_last f c w ctx target n attempt now backoff resp dur e
            hctx hreq hdo hmore]
          exact Iter.last hctx ⟨rfl, Or.inl rfl, Or.inl ⟨rfl, by simp⟩⟩
      | ok got =>
        by_cases hgo : isRetryableStatus got.StatusCode = true ∧ (attempt : Int) < f.MaxRetries
        · cases cut with
          | none =>
            rw [retryLoop_ok_retry f c w ctx target n attempt now backoff resp dur got t
              hctx hreq hdo hgo.1 hgo.2 hwait]
            exact Iter.next hctx hgo.2 t (some got) rfl
          | some ce =>
            rw [retryLoop_ok_cut f c w ctx target n attempt now backoff resp dur got t ce
              hctx hreq hdo hgo.1 hgo.2 hwait]
            exact Iter.last hctx ⟨rfl, Or.inr ⟨rfl, hgo.2⟩, Or.inl ⟨rfl, by simp⟩⟩
        · rw [retryLoop_ok_return f c w ctx target n attempt now backoff resp dur got
            hctx hreq hdo hgo]
          exact Iter.last hctx ⟨rfl, Or.inl rfl, Or.inr ⟨by simp, rfl⟩⟩

theorem retryLoop_step (f : Gateway) (c : HttpClient) (w : World) (ctx : Context)
    (target : GoString) (n attempt : Nat) (now : Time) (backoff : Duration)
    (resp : Option Response) :
    Step f c w ctx target n attempt now backoff
      (retryLoop f c w ctx target (n + 1) attempt now backoff resp) := by
  cases hctx : ctx.Err now with
  | some e =>
    exact Step.done e hctx (retryLoop_ctxErr f c w ctx target n attempt now backoff resp e hctx)
  | none =>
    cases hreq : w.NewRequest (target ++ dataPath) with
    | some e =>
      exact Step.refused e hctx hreq
        (retryLoop_reqErr f c w ctx target n attempt now backoff resp e hctx hreq)
    | none =>
      rcases hdo : c.Do (target ++ dataPath) attempt now with ⟨dur, res⟩
      rcases hwait : ctx.wait (now + dur) backoff with ⟨t, cut⟩
      have hdur : (c.Do (target ++ dataPath) attempt now).1 = dur := by rw [hdo]
      have hres : (c.Do (target ++ dataPath) attempt now).2 = res := by rw [hdo]
      cases res with
      | fail e =>
        by_cases hmore : (attempt : Int) < f.MaxRetries
        · have hgo : retriesAfter f attempt (c.Do (target ++ dataPath) attempt now).2 = true := by
            rw [hres]; simp [retriesAfter, hmore]
          cases cut with
          | none =>
            exact Step.slept t none hctx hreq hgo (by rw [hdur]; exact hwait)
              (retryLoop_fail_retry f c w ctx target n attempt now backoff resp dur e t
                hctx hreq hdo hmore hwait)
          | some ce =>
            exact Step.cut t ce hctx hreq hgo (by rw [hdur]; exact hwait)
              (retryLoop_fail_cut f c w ctx target n attempt now backoff resp dur e t ce
                hctx hreq hdo hmore hwait)
        · have hstop : retriesAfter f attempt (c.Do (target ++ dataPath) attempt now).2 =
              false := by
            rw [hres]; simp [retriesAfter, hmore]
          exact Step.failed e hctx hreq hres hstop (by
            rw [hdur]
            exact retryLoop_fail_last f c w ctx target n attempt now backoff resp dur e
              hctx hreq hdo hmore)
      | ok got =>
        by_cases hgo' : isRetryableStatus got.StatusCode = true ∧ (attempt : Int) < f.MaxRetries
        · have hgo : retriesAfter f attempt (c.Do (target ++ dataPath) attempt now).2 = true := by
            rw [hres]; simp [retriesAfter, hgo'.1, hgo'.2]
          cases cut with
          | none =>
            exact Step.slept t (some got) hctx hreq hgo (by rw [hdur]; exact hwait)
              (retryLoop_ok_retry f c w ctx target n attempt now backoff resp dur got t
                hctx hreq hdo hgo'.1 hgo'.2 hwait)
          | some ce =>
            exact Step.cut t ce hctx hreq hgo (by rw [hdur]; exact hwait)
              (retryLoop_ok_cut f c w ctx target n attempt now backoff resp dur got t ce
                hctx hreq hdo hgo'.1 hgo'.2 hwait)
        · have hstop : retriesAfter f attempt (c.Do (target ++ dataPath) attempt now).2 =
              false := by
            rw [hres]
            simp only [retriesAfter]
            by_cases h₁ : isRetryableStatus got.StatusCode = true
            · have h₂ : ¬ (attempt : Int) < f.MaxRetries := fun h => hgo' ⟨h₁, h⟩
              simp [h₂]
            · simp [h₁]
          exact Step.answered got hctx hreq hres hstop (by
            rw [hdur]
            exact retryLoop_ok_return f c w ctx target n attempt now backoff resp dur got
              hctx hreq hdo hgo')

/-- Every attempt is issued at a time at which `ctx.Err()` was nil. -/
theorem retryLoop_issued_ctx_ok (f : Gateway) (c : HttpClient) (w : World) (ctx : Context)
    (target : GoString) (n : Nat) :
    ∀ (attempt : Nat) (now : Time) (backoff : Duration) (resp : Option Response),
      ∀ t ∈ (retryLoop f c w ctx target n attempt now backoff resp).issued,
        ctx.Err t = none := by
  induction n with
  | zero => intro attempt now backoff resp t ht; simp [retryLoop_zero] at ht
  | succ n ih =>
    intro attempt now backoff resp t ht
    cases retryLoop_cases f c w ctx target n attempt now backoff resp with
    | stop hrun => rw [hrun.1] at ht; simp at ht
    | last hctx hrun =>
      rw [hrun.1, List.mem_singleton] at ht
      rw [ht]; exact hctx
    | next hctx hmore t₁ resp₁ hrun =>
      rw [hrun] at ht
      simp only [Run.after, List.mem_cons] at ht
      rcases ht with ht | ht
      · rw [ht]; exact hctx
      · exact ih _ _ _ _ t ht

/-- The sleeps are the iterates of the backoff update on the backoff the loop starts with. -/
theorem retryLoop_sleeps (f : Gateway) (c : HttpClient) (w : World) (ctx : Context)
    (target : GoString) (n : Nat) :
    ∀ (attempt : Nat) (now : Time) (backoff : Duration) (resp : Option Response) (k : Nat)
      (d : Duration),
      (retryLoop f c w ctx target n attempt now backoff resp).sleeps[k]? = some d →
        d = (mulBackoff w.OutOfRange)^[k] backoff := by
  induction n with
  | zero => intro attempt now backoff resp k d h; simp [retryLoop_zero] at h
  | succ n ih =>
    intro attempt now backoff resp k d h
    cases retryLoop_cases f c w ctx target n attempt now backoff resp with
    | stop hrun => rw [hrun.2.1] at h; simp at h
    | last hctx hrun =>
      rcases hrun.2.1 with hs | ⟨hs, _⟩
      · rw [hs] at h; simp at h
      · rw [hs] at h
        cases k with
        | zero => simp at h; exact h.symm
        | succ k => simp at h
    | next hctx hmore t₁ resp₁ hrun =>
      rw [hrun] at h
      cases k with
      | zero => simp [Run.after] at h; exact h.symm
      | succ k =>
        simp only [Run.after, List.getElem?_cons_succ] at h
        rw [Function.iterate_succ_apply]
        exact ih _ _ _ _ k d h

/-- Counting: with `n` iterations left and `n + attempt = MaxRetries + 1`, the loop makes at most
`n` attempts, enters at most as many sleeps as it makes attempts and fewer than `n` of them, and
returns exactly one of a response and an error; a response comes after at least one attempt. -/
theorem retryLoop_counts (f : Gateway) (c : HttpClient) (w : World) (ctx : Context)
    (target : GoString) (n : Nat) :
    ∀ (attempt : Nat) (now : Time) (backoff : Duration) (resp : Option Response),
      ((n : Int) + 1 + attempt = f.MaxRetries + 1) →
      (retryLoop f c w ctx target (n + 1) attempt now backoff resp).issued.length ≤ n + 1 ∧
      (retryLoop f c w ctx target (n + 1) attempt now backoff resp).sleeps.length ≤ n ∧
      (retryLoop f c w ctx target (n + 1) attempt now backoff resp).sleeps.length ≤
        (retryLoop f c w ctx target (n + 1) attempt now backoff resp).issued.length ∧
      (((retryLoop f c w ctx target (n + 1) attempt now backoff resp).resp = none ∧
          (retryLoop f c w ctx target (n + 1) attempt now backoff resp).err ≠ none) ∨
        ((retryLoop f c w ctx target (n + 1) attempt now backoff resp).resp ≠ none ∧
          (retryLoop f c w ctx target (n + 1) attempt now backoff resp).err = none ∧
          1 ≤ (retryLoop f c w ctx target (n + 1) attempt now backoff resp).issued.length)) := by
  induction n with
  | zero =>
    intro attempt now backoff resp hinv
    cases retryLoop_cases f c w ctx target 0 attempt now backoff resp with
    | stop hrun => simp [hrun.1, hrun.2.1, hrun.2.2.1, hrun.2.2.2]
    | last hctx hrun =>
      have hs : (retryLoop f c w ctx target (0 + 1) attempt now backoff resp).sleeps = [] := by
        rcases hrun.2.1 with hs | ⟨_, hmore⟩
        · exact hs
        · omega
      rw [hrun.1, hs]
      refine ⟨by simp, by simp, by simp, ?_⟩
      rcases hrun.2.2 with h | h
      · exact Or.inl h
      · exact Or.inr ⟨h.1, h.2, by simp⟩
    | next hctx hmore t₁ resp₁ hrun => omega
  | succ n ih =>
    intro attempt now backoff resp hinv
    cases retryLoop_cases f c w ctx target (n + 1) attempt now backoff resp with
    | stop hrun => simp [hrun.1, hrun.2.1, hrun.2.2.1, hrun.2.2.2]
    | last hctx hrun =>
      rw [hrun.1]
      have hs : (retryLoop f c w ctx target (n + 1 + 1) attempt now backoff resp).sleeps.length
          ≤ 1 := by
        rcases hrun.2.1 with hs | ⟨hs, _⟩ <;> rw [hs] <;> simp
      refine ⟨by simp, by omega, by simpa using hs, ?_⟩
      rcases hrun.2.2 with h | h
      · exact Or.inl h
      · exact Or.inr ⟨h.1, h.2, by simp⟩
    | next hctx hmore t₁ resp₁ hrun =>
      have h := ih (attempt + 1) t₁ (mulBackoff w.OutOfRange backoff) resp₁
        (by push_cast at hinv ⊢; omega)
      rw [hrun]
      simp only [Run.after, List.length_cons]
      refine ⟨by omega, by omega, by omega, ?_⟩
      rcases h.2.2.2 with h' | h'
      · exact Or.inl h'
      · exact Or.inr ⟨h'.1, h'.2.1, by omega⟩

theorem Forward_configured (f : Gateway) (w : World) (now : Time) (c : HttpClient)
    (reg : ServiceRegistry) (hc : f.Client = some c) (hr : f.Registry = some reg)
    (htarget : (NextInstance reg now).1 ≠ []) :
    (Forward f w now).1 =
      retryLoop f c w (w.WithTimeout now f.Timeout) (NextInstance reg now).1
        (f.MaxRetries + 1).toNat 0 now f.BackoffBase none := by
  unfold Forward
  rw [hc, hr]
  simp only [htarget, if_false]

/-- The three ways `Forward` goes: not configured, no backend, or the retry loop. -/
theorem Forward_cases (f : Gateway) (w : World) (now : Time) :
    (Forward f w now).1 =
        { resp := none, err := some Err.notConfigured, issued := [], sleeps := [],
          finish := now } ∨
    (Forward f w now).1 =
        { resp := none, err := some Err.noServices, issued := [], sleeps := [], finish := now } ∨
    ∃ c target, (Forward f w now).1 =
      retryLoop f c w (w.WithTimeout now f.Timeout) target (f.MaxRetries + 1).toNat 0 now
        f.BackoffBase none := by
  unfold Forward
  cases hc : f.Client with
  | none => exact Or.inl rfl
  | some c =>
    cases hr : f.Registry with
    | none => exact Or.inl rfl
    | some reg =>
      by_cases ht : (NextInstance reg now).1 = []
      · right; left
        simp only [ht, if_true]
      · right; right
        exact ⟨c, (NextInstance reg now).1, by simp only [ht, if_false]⟩

theorem Forward_issued_ctx_ok (f : Gateway) (w : World) (now : Time) :
    ∀ t ∈ (Forward f w now).1.issued, (w.WithTimeout now f.Timeout).Err t = none := by
  intro t ht
  rcases Forward_cases f w now with h | h | ⟨c, target, h⟩
  · rw [h] at ht; simp at ht
  · rw [h] at ht; simp at ht
  · rw [h] at ht
    exact retryLoop_issued_ctx_ok f c w _ target _ 0 now f.BackoffBase none t ht

/-- For `MaxRetries ≥ 0`, `Forward` returns exactly one of a response and an error, and a
response comes after at least one and at most `MaxRetries + 1` attempts. -/
theorem Forward_outcome_of_nonneg (f : Gateway) (w : World) (now : Time)
    (hM : 0 ≤ f.MaxRetries) :
    ((Forward f w now).1.resp = none ∧ (Forward f w now).1.err ≠ none) ∨
    ((Forward f w now).1.resp ≠ none ∧ (Forward f w now).1.err = none ∧
      1 ≤ (Forward f w now).1.issued.length ∧
      ((Forward f w now).1.issued.length : Int) ≤ f.MaxRetries + 1) := by
  rcases Forward_cases f w now with h | h | ⟨c, target, h⟩
  · rw [h]; left; simp
  · rw [h]; left; simp
  · rw [h]
    have hn : (f.MaxRetries + 1).toNat = f.MaxRetries.toNat + 1 := by omega
    rw [hn]
    have hc := retryLoop_counts f c w (w.WithTimeout now f.Timeout) target f.MaxRetries.toNat 0
      now f.BackoffBase none (by push_cast; omega)
    rcases hc.2.2.2 with h' | h'
    · exact Or.inl h'
    · exact Or.inr ⟨h'.1, h'.2.1, h'.2.2, by have := hc.1; omega⟩

theorem Forward_ctx_error_nil_resp (f : Gateway) (w : World) (now : Time) (e : CtxErr)
    (he : (Forward f w now).1.err = some (Err.ctx e)) : (Forward f w now).1.resp = none := by
  by_cases hM : 0 ≤ f.MaxRetries
  · rcases Forward_outcome_of_nonneg f w now hM with h | h
    · exact h.1
    · rw [h.2.1] at he
      exact Option.noConfusion he
  · rcases Forward_cases f w now with h | h | ⟨c, target, h⟩
    · rw [h]
    · rw [h]
    · have hn : (f.MaxRetries + 1).toNat = 0 := by omega
      rw [h, hn, retryLoop_zero]

/-- On the exact clock, a sleep of positive duration `d` entered at `t` is cut short when the
context is done before `t + d`: `select` returns at the later of `t` and `doneAt`, with the
context's error. -/
theorem idealContext_wait_cut (doneAt : Int) (e : CtxErr) (tie : Bool) (t : Int)
    (d : Int) (hd : 0 < d) (h : doneAt < t + d) :
    (idealContext doneAt e tie).wait t d = (max t doneAt, some e) := by
  have hmax : max d 0 = d := max_eq_left (le_of_lt hd)
  have hlt : max t doneAt < t + d := max_lt (by omega) h
  have hn : ¬ (t + d < max t doneAt) := not_lt.mpr (le_of_lt hlt)
  simp only [idealContext, hmax, hn, hlt, if_false, if_true]

/-- C6: `Forward` never starts an attempt once the bounded context is done, whatever retries
remain. At every iteration of the loop, a context found done at the top makes `Forward` return a
nil response and the context's error with no further attempt; a sleep that the context cuts
short, after a transport failure or after a retryable status, does the same after the one
attempt already made. Hence every attempt of every `Forward` call is issued at a time at which
the context was not done, and a context error is returned with a nil response. On the exact
clock every attempt is issued strictly before the deadline `now + Timeout`, and a positive sleep
that would end after the deadline is cut at the deadline. -/
theorem Forward_never_retries_past_deadline (f : Gateway) (c : HttpClient) (w : World)
    (ctx : Context) (target : GoString) :
    (∀ (n attempt : Nat) (now : Time) (backoff : Duration) (resp : Option Response)
        (e : CtxErr), ctx.Err now = some e →
      retryLoop f c w ctx target (n + 1) attempt now backoff resp =
        { resp := none, err := some (Err.ctx e), issued := [], sleeps := [], finish := now }) ∧
    (∀ (n attempt : Nat) (now : Time) (backoff : Duration) (resp : Option Response)
        (dur : Duration) (id : Nat) (t : Time) (ce : CtxErr),
      ctx.Err now = none → w.NewRequest (target ++ dataPath) = none →
      c.Do (target ++ dataPath) attempt now = (dur, DoResult.fail id) →
      (attempt : Int) < f.MaxRetries → ctx.wait (now + dur) backoff = (t, some ce) →
      retryLoop f c w ctx target (n + 1) attempt now backoff resp =
        { resp := none, err := some (Err.ctx ce), issued := [now], sleeps := [backoff],
          finish := t }) ∧
    (∀ (n attempt : Nat) (now : Time) (backoff : Duration) (resp : Option Response)
        (dur : Duration) (got : Response) (t : Time) (ce : CtxErr),
      ctx.Err now = none → w.NewRequest (target ++ dataPath) = none →
      c.Do (target ++ dataPath) attempt now = (dur, DoResult.ok got) →
      isRetryableStatus got.StatusCode = true →
      (attempt : Int) < f.MaxRetries → ctx.wait (now + dur) backoff = (t, some ce) →
      retryLoop f c w ctx target (n + 1) attempt now backoff resp =
        { resp := none, err := some (Err.ctx ce), issued := [now], sleeps := [backoff],
          finish := t }) ∧
    (∀ (now : Time), ∀ t ∈ (Forward f w now).1.issued,
      (w.WithTimeout now f.Timeout).Err t = none) ∧
    (∀ (now : Time) (e : CtxErr), (Forward f w now).1.err = some (Err.ctx e) →
      (Forward f w now).1.resp = none) ∧
    (∀ (tie : Bool) (now : Time), ∀ t ∈ (Forward f (idealWorld tie) now).1.issued,
      t < now + f.Timeout) ∧
    (∀ (tie : Bool) (now t : Time) (d : Duration), 0 < d → now + f.Timeout < t + d →
      ((idealWorld tie).WithTimeout now f.Timeout).wait t d =
        (max t (now + f.Timeout), some CtxErr.DeadlineExceeded)) := by
  refine ⟨?_, ?_, ?_, ?_, ?_, ?_, ?_⟩
  · intro n attempt now backoff resp e he
    exact retryLoop_ctxErr f c w ctx target n attempt now backoff resp e he
  · intro n attempt now backoff resp dur id t ce hctx hreq hdo hmore hwait
    exact retryLoop_fail_cut f c w ctx target n attempt now backoff resp dur id t ce hctx hreq
      hdo hmore hwait
  · intro n attempt now backoff resp dur got t ce hctx hreq hdo hretry hmore hwait
    exact retryLoop_ok_cut f c w ctx target n attempt now backoff resp dur got t ce hctx hreq
      hdo hretry hmore hwait
  · intro now t ht
    exact Forward_issued_ctx_ok f w now t ht
  · intro now e he
    exact Forward_ctx_error_nil_resp f w now e he
  · intro tie now t ht
    have h := Forward_issued_ctx_ok f (idealWorld tie) now t ht
    simp only [idealWorld, idealContext] at h
    by_contra hlt
    have hle : now + f.Timeout ≤ t := not_lt.mp hlt
    simp [hle] at h
  · intro tie now t d hd h
    exact idealContext_wait_cut (now + f.Timeout) CtxErr.DeadlineExceeded tie t d hd h

/-- Scenario D, an instance of C6: with a 50ms deadline, a 200ms backoff base, retries left and
a transport failure 1ms after the start, the sleep entered at 1ms is cut at 50ms and `Forward`
returns a nil response and `DeadlineExceeded` after its single attempt. -/
theorem Forward_never_retries_past_deadline_witness :
    (Forward scenarioD (idealWorld true) 0).1 =
      { resp := none, err := some (Err.ctx CtxErr.DeadlineExceeded), issued := [0],
        sleeps := [200000000], finish := 50000000 } ∧
    ((idealWorld true).WithTimeout 0 scenarioD.Timeout).wait 1000000 200000000 =
      (max 1000000 (0 + scenarioD.Timeout), some CtxErr.DeadlineExceeded) ∧
    (∀ t ∈ (Forward scenarioD (idealWorld true) 0).1.issued, t < 0 + scenarioD.Timeout) :=
  ⟨by decide,
    (Forward_never_retries_past_deadline scenarioD (failingClient 1000000) (idealWorld true)
      ((idealWorld true).WithTimeout 0 scenarioD.Timeout) [97]).2.2.2.2.2.2 true 0 1000000
      200000000 (by decide) (by decide),
    (Forward_never_retries_past_deadline scenarioD (failingClient 1000000) (idealWorld true)
      ((idealWorld true).WithTimeout 0 scenarioD.Timeout) [97]).2.2.2.2.2.1 true 0⟩

/-- C7, where the code departs from it: a configured gateway with `MaxRetries = -1` and an alive
backend makes no attempt and returns a nil response together with a nil error. -/
theorem Forward_negative_MaxRetries_nil_nil :
    (Forward negativeRetries (idealWorld true) 5).1 =
      { resp := none, err := none, issued := [], sleeps := [], finish := 5 } := by
  decide

/-- The same for every negative `MaxRetries` and every world, given a client, a registry and a
target. -/
theorem Forward_of_negative_MaxRetries (f : Gateway) (w : World) (now : Time) (c : HttpClient)
    (reg : ServiceRegistry) (hc : f.Client = some c) (hr : f.Registry = some reg)
    (htarget : (NextInstance reg now).1 ≠ []) (hM : f.MaxRetries < 0) :
    (Forward f w now).1 =
      { resp := none, err := none, issued := [], sleeps := [], finish := now } := by
  rw [Forward_configured f w now c reg hc hr htarget]
  have hn : (f.MaxRetries + 1).toNat = 0 := by omega
  rw [hn, retryLoop_zero]

theorem bitLenAux_le_iff (fuel : Nat) : ∀ n k : Nat, n ≤ fuel →
    (bitLenAux fuel n ≤ k ↔ n < 2 ^ k) := by
  induction fuel with
  | zero =>
    intro n k hn
    have : n = 0 := by omega
    subst this
    simp [bitLenAux]
  | succ fuel ih =>
    intro n k hn
    by_cases h0 : n = 0
    · subst h0
      simp [bitLenAux]
    · simp only [bitLenAux, h0, if_false]
      cases k with
      | zero =>
        simp only [pow_zero, Nat.lt_one_iff]
        constructor
        · intro h; omega
        · intro h; exact absurd h h0
      | succ k =>
        have hhalf : n / 2 ≤ fuel := by omega
        rw [Nat.add_le_add_iff_right, ih (n / 2) k hhalf, pow_succ]
        omega

/-- The function `bitLen` counts binary digits: `n` has at most `k` of them exactly when
`n < 2^k`. -/
theorem bitLen_le_iff (n k : Nat) : bitLen n ≤ k ↔ n < 2 ^ k :=
  bitLenAux_le_iff n n k (le_refl n)

theorem round53_of_small (n : Nat) (h : n < 2 ^ 53) : round53 n = n := by
  unfold round53
  simp only [(bitLen_le_iff n 53).mpr h, if_true]

theorem round53_of_bits (n b : Nat) (hb : bitLen n = b) (h : ¬ b ≤ 53) :
    round53 n =
      if n % 2 ^ (b - 53) > 2 ^ (b - 53 - 1) ∨
          (n % 2 ^ (b - 53) = 2 ^ (b - 53 - 1) ∧ n / 2 ^ (b - 53) % 2 = 1) then
        (n / 2 ^ (b - 53) + 1) * 2 ^ (b - 53)
      else n / 2 ^ (b - 53) * 2 ^ (b - 53) := by
  unfold round53
  simp only [hb, h, if_false]

theorem bitLen_bounds (n b : Nat) (hb : bitLen n = b) (hpos : 0 < b) :
    2 ^ (b - 1) ≤ n ∧ n < 2 ^ b := by
  constructor
  · by_contra hlt
    have := (bitLen_le_iff n (b - 1)).mpr (not_le.mp hlt)
    omega
  · exact (bitLen_le_iff n b).mp (le_of_eq hb)

set_option maxHeartbeats 4000000 in
/-- Below `2^49` the float64 product with 1.7, fraction discarded, is the exact product rounded
down: the rounding error of the multiplication never reaches the next integer. -/
theorem mulBackoffNat_eq_floor (d : Nat) (hd : d < 2 ^ 49) : mulBackoffNat d = 17 * d / 10 := by
  unfold mulBackoffNat f64_1_7
  rw [round53_of_small d (by omega)]
  obtain ⟨b, hb⟩ : ∃ b, bitLen (d * 7656119366529843) = b := ⟨_, rfl⟩
  by_cases hsmall : b ≤ 53
  · have hlt := (bitLen_le_iff (d * 7656119366529843) 53).mp (hb ▸ hsmall)
    rw [round53_of_small _ hlt]
    norm_num at hlt ⊢
    omega
  · have hbd := bitLen_bounds _ b hb (by omega)
    have hle : b ≤ 102 := by
      rw [← hb, bitLen_le_iff]
      norm_num at hd ⊢
      omega
    rw [round53_of_bits _ b hb hsmall]
    have hge : 54 ≤ b := by omega
    clear hb hsmall
    interval_cases b <;> norm_num at hbd hd ⊢ <;> split <;> omega

theorem mulBackoff_of_fits (conv : Int → Duration) (b : Duration)
    (h : minInt64 ≤ mulBackoffExact b ∧ mulBackoffExact b ≤ maxInt64) :
    mulBackoff conv b = mulBackoffExact b := by
  unfold mulBackoff
  rw [if_pos h]

theorem mulBackoff_of_not_fits (conv : Int → Duration) (b : Duration)
    (h : ¬ (minInt64 ≤ mulBackoffExact b ∧ mulBackoffExact b ≤ maxInt64)) :
    mulBackoff conv b = conv (mulBackoffExact b) := by
  unfold mulBackoff
  rw [if_neg h]

theorem mulBackoffExact_of_nonneg (b : Int) (h₀ : 0 ≤ b) (h₁ : b < 2 ^ 49) :
    mulBackoffExact b = 17 * b / 10 := by
  have hn : b.toNat < 2 ^ 49 := by
    norm_num at h₁ ⊢
    omega
  unfold mulBackoffExact
  rw [if_pos h₀, mulBackoffNat_eq_floor b.toNat hn]
  push_cast
  rw [Int.toNat_of_nonneg h₀]

theorem mulBackoffExact_of_neg (b : Int) (h₀ : b < 0) (h₁ : -(2 ^ 49) < b) :
    mulBackoffExact b = -(17 * (-b) / 10) := by
  have hn : (-b).toNat < 2 ^ 49 := by
    norm_num at h₁ ⊢
    omega
  unfold mulBackoffExact
  rw [if_neg (not_le.mpr h₀), mulBackoffNat_eq_floor (-b).toNat hn]
  push_cast
  rw [Int.toNat_of_nonneg (by omega)]

theorem mulBackoff_of_nonneg (conv : Int → Duration) (b : Int) (h₀ : 0 ≤ b) (h₁ : b < 2 ^ 49) :
    mulBackoff conv b = 17 * b / 10 := by
  have he := mulBackoffExact_of_nonneg b h₀ h₁
  rw [mulBackoff_of_fits conv b (by
    rw [he]
    unfold minInt64 maxInt64
    norm_num at h₁
    omega), he]

theorem mulBackoff_of_neg (conv : Int → Duration) (b : Int) (h₀ : b < 0)
    (h₁ : -(2 ^ 49) < b) : mulBackoff conv b = -(17 * (-b) / 10) := by
  have he := mulBackoffExact_of_neg b h₀ h₁
  rw [mulBackoff_of_fits conv b (by
    rw [he]
    unfold minInt64 maxInt64
    norm_num at h₁
    omega), he]

/-! ### The exact clock -/

theorem idealContext_Err_some (doneAt : Int) (e ce : CtxErr) (tie : Bool) (t : Int)
    (h : (idealContext doneAt e tie).Err t = some ce) : doneAt ≤ t := by
  by_contra hlt
  simp [idealContext, hlt] at h

theorem idealContext_wait_some (doneAt : Int) (e ce : CtxErr) (tie : Bool) (t t₁ : Int)
    (d : Int) (h : (idealContext doneAt e tie).wait t d = (t₁, some ce)) : doneAt ≤ t₁ := by
  simp only [idealContext] at h
  by_cases h₁ : t + max d 0 < max t doneAt
  · simp [h₁] at h
  · by_cases h₂ : max t doneAt < t + max d 0
    · simp only [h₁, h₂, if_false, if_true, Prod.mk.injEq] at h
      rw [← h.1]
      exact le_max_right t doneAt
    · simp only [h₁, h₂, if_false, Prod.mk.injEq] at h
      rw [← h.1]
      exact le_trans (le_max_right t doneAt) (not_lt.mp h₁)

theorem idealContext_wait_none (doneAt : Int) (e : CtxErr) (tie : Bool) (t t₁ : Int)
    (d : Int) (h : (idealContext doneAt e tie).wait t d = (t₁, none)) : t₁ = t + max d 0 := by
  simp only [idealContext] at h
  by_cases h₁ : t + max d 0 < max t doneAt
  · simp only [h₁, if_true, Prod.mk.injEq] at h
    exact h.1.symm
  · by_cases h₂ : max t doneAt < t + max d 0
    · simp [h₁, h₂] at h
    · simp only [h₁, h₂, if_false, Prod.mk.injEq] at h
      exact h.1.symm

/-- When the context reports an error only from `doneAt` on, and cuts a sleep only at `doneAt`
or later, a run that ends with the context's error ends at `doneAt` or later. -/
theorem retryLoop_ctx_error_late (f : Gateway) (c : HttpClient) (w : World) (ctx : Context)
    (target : GoString) (doneAt : Time)
    (hErr : ∀ t e, ctx.Err t = some e → doneAt ≤ t)
    (hcut : ∀ t d t₁ e, ctx.wait t d = (t₁, some e) → doneAt ≤ t₁) (n : Nat) :
    ∀ (attempt : Nat) (now : Time) (backoff : Duration) (resp : Option Response) (e : CtxErr),
      (retryLoop f c w ctx target n attempt now backoff resp).err = some (Err.ctx e) →
      doneAt ≤ (retryLoop f c w ctx target n attempt now backoff resp).finish := by
  induction n with
  | zero => intro attempt now backoff resp e h; simp [retryLoop_zero] at h
  | succ n ih =>
    intro attempt now backoff resp e h
    cases retryLoop_step f c w ctx target n attempt now backoff resp with
    | done e₁ hctx hrun => rw [hrun]; exact hErr now e₁ hctx
    | refused e₁ hctx hreq hrun => rw [hrun] at h; simp at h
    | failed e₁ hctx hreq hres hstop hrun => rw [hrun] at h; simp at h
    | answered got hctx hreq hres hstop hrun => rw [hrun] at h; simp at h
    | cut t ce hctx hreq hgo hwait hrun => rw [hrun]; exact hcut _ _ t ce hwait
    | slept t resp₁ hctx hreq hgo hwait hrun =>
      rw [hrun] at h ⊢
      exact ih _ _ _ _ e h

/-! ### Retryable statuses all the way -/

/-- With a request that can be built and a retryable status on every attempt, a run of the loop
that does not end with the context's error makes every remaining attempt, sleeps after each but
the last, and returns the response of the last. -/
theorem retryLoop_retryable_exhausted (f : Gateway) (c : HttpClient) (w : World)
    (ctx : Context) (target : GoString) (hreq : w.NewRequest (target ++ dataPath) = none)
    (hDo : ∀ k t, ∃ dur got, c.Do (target ++ dataPath) k t = (dur, DoResult.ok got) ∧
      isRetryableStatus got.StatusCode = true) (n : Nat) :
    ∀ (attempt : Nat) (now : Time) (backoff : Duration) (resp : Option Response),
      ((n : Int) + attempt = f.MaxRetries) →
      (∀ e, (retryLoop f c w ctx target (n + 1) attempt now backoff resp).err ≠
        some (Err.ctx e)) →
      (retryLoop f c w ctx target (n + 1) attempt now backoff resp).issued.length = n + 1 ∧
      (retryLoop f c w ctx target (n + 1) attempt now backoff resp).sleeps.length = n ∧
      (retryLoop f c w ctx target (n + 1) attempt now backoff resp).err = none ∧
      ∃ t dur got,
        (retryLoop f c w ctx target (n + 1) attempt now backoff resp).issued.getLast? = some t ∧
        c.Do (target ++ dataPath) (attempt + n) t = (dur, DoResult.ok got) ∧
        (retryLoop f c w ctx target (n + 1) attempt now backoff resp).resp = some got ∧
        isRetryableStatus got.StatusCode = true := by
  induction n with
  | zero =>
    intro attempt now backoff resp hinv hlive
    obtain ⟨dur, got, hdo, hretry⟩ := hDo attempt now
    cases retryLoop_step f c w ctx target 0 attempt now backoff resp with
    | done e hctx hrun => exact absurd (by rw [hrun]) (hlive e)
    | refused e hctx hreq₁ hrun => rw [hreq] at hreq₁; exact Option.noConfusion hreq₁
    | failed e hctx hreq₁ hres hstop hrun => rw [hdo] at hres; exact DoResult.noConfusion hres
    | answered got₁ hctx hreq₁ hres hstop hrun =>
      rw [hdo] at hres
      injection hres with hgot
      subst hgot
      rw [hrun]
      exact ⟨rfl, rfl, rfl, now, dur, got, rfl, hdo, rfl, hretry⟩
    | cut t ce hctx hreq₁ hgo hwait hrun => exact absurd (by rw [hrun]) (hlive ce)
    | slept t resp₁ hctx hreq₁ hgo hwait hrun =>
      rw [hdo] at hgo
      simp only [retriesAfter, Bool.and_eq_true, decide_eq_true_eq] at hgo
      omega
  | succ n ih =>
    intro attempt now backoff resp hinv hlive
    obtain ⟨dur, got, hdo, hretry⟩ := hDo attempt now
    have hmore : (attempt : Int) < f.MaxRetries := by push_cast at hinv; omega
    cases retryLoop_step f c w ctx target (n + 1) attempt now backoff resp with
    | done e hctx hrun => exact absurd (by rw [hrun]) (hlive e)
    | refused e hctx hreq₁ hrun => rw [hreq] at hreq₁; exact Option.noConfusion hreq₁
    | failed e hctx hreq₁ hres hstop hrun => rw [hdo] at hres; exact DoResult.noConfusion hres
    | answered got₁ hctx hreq₁ hres hstop hrun =>
      rw [hdo] at hstop
      simp [retriesAfter, hretry, hmore] at hstop
    | cut t ce hctx hreq₁ hgo hwait hrun => exact absurd (by rw [hrun]) (hlive ce)
    | slept t resp₁ hctx hreq₁ hgo hwait hrun =>
      have hlive₁ : ∀ e, (retryLoop f c w ctx target (n + 1) (attempt + 1) t
          (mulBackoff w.OutOfRange backoff) resp₁).err ≠ some (Err.ctx e) := by
        intro e he
        apply hlive e
        rw [hrun]
        exact he
      obtain ⟨h₁, h₂, h₃, t₁, dur₁, got₁, hlast, hdo₁, hresp, hretry₁⟩ :=
        ih (attempt + 1) t (mulBackoff w.OutOfRange backoff) resp₁
          (by push_cast at hinv ⊢; omega) hlive₁
      rw [hrun]
      refine ⟨by simp [Run.after, h₁], by simp [Run.after, h₂], h₃, t₁, dur₁, got₁, ?_, ?_,
        hresp, hretry₁⟩
      · simp only [Run.after]
        cases hiss : (retryLoop f c w ctx target (n + 1) (attempt + 1) t
            (mulBackoff w.OutOfRange backoff) resp₁).issued with
        | nil => rw [hiss] at h₁; simp at h₁
        | cons a rest =>
          rw [hiss] at hlast
          rw [List.getLast?_cons_cons]
          exact hlast
      · have e : attempt + (n + 1) = attempt + 1 + n := by omega
        rw [e]
        exact hdo₁

/-- C5 as stated fails: the gateway of scenario C over a registry whose one alive address is
the byte `0x7f` has a client and a registry, `MaxRetries = 2`, a target from `NextInstance`, a
backend that would answer 503 to every attempt, and returns long before its deadline; yet the
request cannot be built, and `Forward` returns that error with a nil response after no
attempt, not the 503 after three. -/
theorem Forward_unbuildable_request_no_attempt :
    controlByteTarget.Client.isSome = true ∧ controlByteTarget.Registry.isSome = true ∧
    0 ≤ controlByteTarget.MaxRetries ∧
    (NextInstance controlByteBackend 5).1 = [127] ∧
    (∀ k t, ((statusClient 1000000 503).Do ([127] ++ dataPath) k t).2 =
        DoResult.ok { StatusCode := 503, Body := 0 }) ∧
    isRetryableStatus 503 = true ∧
    (Forward controlByteTarget (strictWorld true) 5).1.finish < 5 + controlByteTarget.Timeout ∧
    (Forward controlByteTarget (strictWorld true) 5).1 =
      { resp := none, err := some (Err.request 0), issued := [], sleeps := [], finish := 5 } ∧
    ((Forward controlByteTarget (strictWorld true) 5).1.issued.length : Int) ≠
      controlByteTarget.MaxRetries + 1 := by
  refine ⟨rfl, rfl, by decide, by decide, fun _ _ => rfl, by decide, by decide, by decide,
    by decide⟩

/-- C5 as amended: for `MaxRetries ≥ 0`, a gateway with a client and a registry, a target
returned by `NextInstance` for which the request can be built, and a retryable status on every
attempt: if the call does not end with the context's error, or, on an exact clock, returns
before the context is done, then `Forward` makes exactly `MaxRetries + 1` attempts, sleeps
`MaxRetries` times, and returns the response of the last attempt, its retryable status
included, with a nil error. -/
theorem Forward_retryable_exhausted (f : Gateway) (w : World) (now : Time) (c : HttpClient)
    (reg : ServiceRegistry) (hc : f.Client = some c) (hr : f.Registry = some reg)
    (hM : 0 ≤ f.MaxRetries) (htarget : (NextInstance reg now).1 ≠ [])
    (hreq : w.NewRequest ((NextInstance reg now).1 ++ dataPath) = none)
    (hDo : ∀ k t, ∃ dur got,
      c.Do ((NextInstance reg now).1 ++ dataPath) k t = (dur, DoResult.ok got) ∧
      isRetryableStatus got.StatusCode = true)
    (hlive : (∀ e, (Forward f w now).1.err ≠ some (Err.ctx e)) ∨
      ∃ doneAt e tie, w.WithTimeout now f.Timeout = idealContext doneAt e tie ∧
        (Forward f w now).1.finish < doneAt) :
    ((Forward f w now).1.issued.length : Int) = f.MaxRetries + 1 ∧
    ((Forward f w now).1.sleeps.length : Int) = f.MaxRetries ∧
    (Forward f w now).1.err = none ∧
    ∃ t dur got,
      (Forward f w now).1.issued.getLast? = some t ∧
      c.Do ((NextInstance reg now).1 ++ dataPath) f.MaxRetries.toNat t = (dur, DoResult.ok got) ∧
      (Forward f w now).1.resp = some got ∧
      isRetryableStatus got.StatusCode = true := by
  have hfw := Forward_configured f w now c reg hc hr htarget
  have hn : (f.MaxRetries + 1).toNat = f.MaxRetries.toNat + 1 := by omega
  have hlive₁ : ∀ e, (Forward f w now).1.err ≠ some (Err.ctx e) := by
    rcases hlive with h | ⟨doneAt, e₀, tie, hctx, hfin⟩
    · exact h
    · intro e he
      rw [hfw] at he hfin
      rw [hctx] at he hfin
      have hlate := retryLoop_ctx_error_late f c w (idealContext doneAt e₀ tie)
        (NextInstance reg now).1 doneAt
        (fun t ce h => idealContext_Err_some doneAt e₀ ce tie t h)
        (fun t d t₁ ce h => idealContext_wait_some doneAt e₀ ce tie t t₁ d h)
        (f.MaxRetries + 1).toNat 0 now f.BackoffBase none e he
      exact absurd hfin (not_lt.mpr hlate)
  rw [hfw, hn] at hlive₁ ⊢
  obtain ⟨h₁, h₂, h₃, t, dur, got, hlast, hdo, hresp, hretry⟩ :=
    retryLoop_retryable_exhausted f c w (w.WithTimeout now f.Timeout) (NextInstance reg now).1
      hreq hDo f.MaxRetries.toNat 0 now f.BackoffBase none (by push_cast; omega) hlive₁
  refine ⟨by rw [h₁]; push_cast; omega, by rw [h₂]; omega, h₃, t, dur, got, hlast, ?_, hresp,
    hretry⟩
  rw [Nat.zero_add] at hdo
  exact hdo

set_option maxRecDepth 4096 in
/-- Scenario C, an instance of the amended C5 under a deadline: with two retries, a 2s timeout on
the exact clock and a backend answering 503 after 1ms, `Forward` returns at 30.000005ms, before
the deadline, with the 503 response and a nil error, after attempts at 5ns, 11.000005ms and
29.000005ms and sleeps of 10ms and 17ms. -/
theorem Forward_retryable_exhausted_witness :
    (Forward scenarioC (idealWorld true) 5).1 =
      { resp := some { StatusCode := 503, Body := 0 }, err := none,
        issued := [5, 11000005, 29000005], sleeps := [10000000, 17000000],
        finish := 30000005 } ∧
    (Forward scenarioC (idealWorld true) 5).1.finish < 5 + scenarioC.Timeout ∧
    ((Forward scenarioC (idealWorld true) 5).1.issued.length : Int) = scenarioC.MaxRetries + 1 ∧
    ((Forward scenarioC (idealWorld true) 5).1.sleeps.length : Int) = scenarioC.MaxRetries ∧
    (Forward scenarioC (idealWorld true) 5).1.err = none := by
  have hrun : (Forward scenarioC (idealWorld true) 5).1 =
      { resp := some { StatusCode := 503, Body := 0 }, err := none,
        issued := [5, 11000005, 29000005], sleeps := [10000000, 17000000],
        finish := 30000005 } := by decide
  have hfin : (Forward scenarioC (idealWorld true) 5).1.finish < 5 + scenarioC.Timeout := by
    rw [hrun]
    decide
  have h := Forward_retryable_exhausted scenarioC (idealWorld true) 5 (statusClient 1000000 503)
    oneBackend rfl rfl (by decide) (by decide) rfl
    (fun _ _ => ⟨1000000, { StatusCode := 503, Body := 0 }, rfl, by decide⟩)
    (Or.inr ⟨5 + scenarioC.Timeout, CtxErr.DeadlineExceeded, true, rfl, hfin⟩)
  exact ⟨hrun, hfin, h.1, h.2.1, h.2.2.1⟩

/-! ### Sleeps and attempts -/

/-- The first attempt of a run of the loop, if there is one, is issued at the time the loop is
entered. -/
theorem retryLoop_issued_head (f : Gateway) (c : HttpClient) (w : World) (ctx : Context)
    (target : GoString) (n attempt : Nat) (now : Time) (backoff : Duration)
    (resp : Option Response) (t : Time)
    (h : (retryLoop f c w ctx target n attempt now backoff resp).issued[0]? = some t) :
    t = now := by
  cases n with
  | zero => simp [retryLoop_zero] at h
  | succ n =>
    cases retryLoop_step f c w ctx target n attempt now backoff resp with
    | done e hctx hrun => rw [hrun] at h; simp at h
    | refused e hctx hreq hrun => rw [hrun] at h; simp at h
    | failed e hctx hreq hres hstop hrun => rw [hrun] at h; simp at h; exact h.symm
    | answered got hctx hreq hres hstop hrun => rw [hrun] at h; simp at h; exact h.symm
    | cut t₁ ce hctx hreq hgo hwait hrun => rw [hrun] at h; simp at h; exact h.symm
    | slept t₁ resp₁ hctx hreq hgo hwait hrun =>
      rw [hrun] at h; simp [Run.after] at h; exact h.symm

/-- In a run of the loop, the attempt number `k` of the run, issued at `t`, is followed by a
sleep exactly when it failed or got a retryable status with attempts remaining, and the timer
of that sleep is the `k`-th iterate of the backoff update; a further attempt is issued only
after such a sleep, at the time the sleep returns with the timer fired. -/
theorem retryLoop_sleep_after (f : Gateway) (c : HttpClient) (w : World) (ctx : Context)
    (target : GoString) (n : Nat) :
    ∀ (attempt : Nat) (now : Time) (backoff : Duration) (resp : Option Response) (k : Nat)
      (t : Time),
      (retryLoop f c w ctx target n attempt now backoff resp).issued[k]? = some t →
      (retryLoop f c w ctx target n attempt now backoff resp).sleeps[k]? =
        (if retriesAfter f (attempt + k) (c.Do (target ++ dataPath) (attempt + k) t).2 = true
          then some ((mulBackoff w.OutOfRange)^[k] backoff) else none) ∧
      ∀ t₁, (retryLoop f c w ctx target n attempt now backoff resp).issued[k + 1]? = some t₁ →
        retriesAfter f (attempt + k) (c.Do (target ++ dataPath) (attempt + k) t).2 = true ∧
        ctx.wait (t + (c.Do (target ++ dataPath) (attempt + k) t).1)
          ((mulBackoff w.OutOfRange)^[k] backoff) = (t₁, none) := by
  induction n with
  | zero => intro attempt now backoff resp k t h; simp [retryLoop_zero] at h
  | succ n ih =>
    intro attempt now backoff resp k t h
    have single : ∀ run : Run, run.issued = [now] → run.issued[k]? = some t →
        k = 0 ∧ t = now := by
      intro run hi hk
      rw [hi] at hk
      cases k with
      | zero => simp at hk; exact ⟨rfl, hk.symm⟩
      | succ k => simp at hk
    cases retryLoop_step f c w ctx target n attempt now backoff resp with
    | done e hctx hrun => rw [hrun] at h; simp at h
    | refused e hctx hreq hrun => rw [hrun] at h; simp at h
    | failed e hctx hreq hres hstop hrun =>
      obtain ⟨hk, ht⟩ := single _ (by rw [hrun]) h
      subst hk; subst ht
      rw [hrun]
      simp [hstop]
    | answered got hctx hreq hres hstop hrun =>
      obtain ⟨hk, ht⟩ := single _ (by rw [hrun]) h
      subst hk; subst ht
      rw [hrun]
      simp [hstop]
    | cut t₁ ce hctx hreq hgo hwait hrun =>
      obtain ⟨hk, ht⟩ := single _ (by rw [hrun]) h
      subst hk; subst ht
      rw [hrun]
      simp [hgo]
    | slept t₁ resp₁ hctx hreq hgo hwait hrun =>
      rw [hrun] at h ⊢
      cases k with
      | zero =>
        simp only [Run.after, List.getElem?_cons_zero, Option.some.injEq] at h
        subst h
        refine ⟨by simp [Run.after, hgo], ?_⟩
        intro t₂ h₂
        simp only [Run.after, Nat.zero_add, List.getElem?_cons_succ] at h₂
        have := retryLoop_issued_head f c w ctx target n (attempt + 1) t₁
          (mulBackoff w.OutOfRange backoff) resp₁ t₂ h₂
        subst this
        exact ⟨by simpa using hgo, by simpa using hwait⟩
      | succ k =>
        simp only [Run.after, List.getElem?_cons_succ] at h ⊢
        have hidx : attempt + (k + 1) = attempt + 1 + k := by omega
        rw [hidx, Function.iterate_succ_apply]
        exact ih (attempt + 1) t₁ (mulBackoff w.OutOfRange backoff) resp₁ k t h

theorem Forward_sleeps (f : Gateway) (w : World) (now : Time) (k : Nat) (d : Duration)
    (h : (Forward f w now).1.sleeps[k]? = some d) :
    d = (mulBackoff w.OutOfRange)^[k] f.BackoffBase ∧ (k : Int) < f.MaxRetries := by
  rcases Forward_cases f w now with h' | h' | ⟨c, target, h'⟩
  · rw [h'] at h; simp at h
  · rw [h'] at h; simp at h
  · rw [h'] at h
    refine ⟨retryLoop_sleeps f c w _ target _ 0 now f.BackoffBase none k d h, ?_⟩
    by_cases hM : 0 ≤ f.MaxRetries
    · have hn : (f.MaxRetries + 1).toNat = f.MaxRetries.toNat + 1 := by omega
      rw [hn] at h
      have hc := retryLoop_counts f c w (w.WithTimeout now f.Timeout) target f.MaxRetries.toNat
        0 now f.BackoffBase none (by push_cast; omega)
      have hk : k < (retryLoop f c w (w.WithTimeout now f.Timeout) target
          (f.MaxRetries.toNat + 1) 0 now f.BackoffBase none).sleeps.length := by
        by_contra hge
        rw [List.getElem?_eq_none (not_lt.mp hge)] at h
        exact Option.noConfusion h
      have := hc.2.1
      omega
    · have hn : (f.MaxRetries + 1).toNat = 0 := by omega
      rw [hn, retryLoop_zero] at h
      simp at h

set_option maxRecDepth 4096 in
/-- C9 as stated fails: with backoff base 1ns and a backend that always fails, the sleep after
the second failed attempt lasts 1ns, which is not `1 * 1.7`. -/
theorem Forward_backoff_not_times_1_7 :
    (Forward tinyBackoff (idealWorld true) 0).1.sleeps = [1, 1] ∧
    ∃ d : Duration, (Forward tinyBackoff (idealWorld true) 0).1.sleeps[1]? = some d ∧
      (d : ℚ) ≠ (tinyBackoff.BackoffBase : ℚ) * (17 / 10) ^ 1 := by
  have hs : (Forward tinyBackoff (idealWorld true) 0).1.sleeps = [1, 1] := by decide
  refine ⟨hs, 1, by rw [hs]; rfl, ?_⟩
  simp only [tinyBackoff]
  norm_num

/-- C9 as amended: in every run of a configured gateway, the attempt number `k` (counted from
0), issued at `t`, is followed by a sleep exactly when it failed at the transport level or got
a retryable status and `k < MaxRetries`; the timer of that sleep is the `k`-th iterate, on
`BackoffBase`, of the update `d ↦ time.Duration(float64(d) * 1.7)`, and nothing caps it. The
next attempt is issued when that sleep returns with the timer fired, on an exact clock
`max d 0` after the failed attempt returned. The update is the float64 product with the
fraction discarded: for a magnitude below `2^49` nanoseconds it is `17 * d / 10` rounded toward
zero, and when the product does not fit an int64 it is what the platform's conversion gives.
With base 10ms the first two sleeps are 10ms and 17ms. -/
theorem Forward_backoff_iterates (f : Gateway) (w : World) (now : Time) (c : HttpClient)
    (reg : ServiceRegistry) (hc : f.Client = some c) (hr : f.Registry = some reg) (k : Nat)
    (t : Time) (hk : (Forward f w now).1.issued[k]? = some t) :
    ((Forward f w now).1.sleeps[k]? =
      if retriesAfter f k (c.Do ((NextInstance reg now).1 ++ dataPath) k t).2 = true
        then some ((mulBackoff w.OutOfRange)^[k] f.BackoffBase) else none) ∧
    (∀ t₁, (Forward f w now).1.issued[k + 1]? = some t₁ →
      retriesAfter f k (c.Do ((NextInstance reg now).1 ++ dataPath) k t).2 = true ∧
      (w.WithTimeout now f.Timeout).wait
        (t + (c.Do ((NextInstance reg now).1 ++ dataPath) k t).1)
        ((mulBackoff w.OutOfRange)^[k] f.BackoffBase) = (t₁, none)) ∧
    (∀ (doneAt t₀ t₁ d : Int) (e : CtxErr) (tie : Bool),
      (idealContext doneAt e tie).wait t₀ d = (t₁, none) → t₁ = t₀ + max d 0) ∧
    (∀ (j : Nat) (d : Duration), (Forward f w now).1.sleeps[j]? = some d →
      d = (mulBackoff w.OutOfRange)^[j] f.BackoffBase ∧ (j : Int) < f.MaxRetries) ∧
    (∀ j b, (mulBackoff w.OutOfRange)^[j + 1] b =
      mulBackoff w.OutOfRange ((mulBackoff w.OutOfRange)^[j] b)) ∧
    (∀ b : Int, 0 ≤ b → b < 2 ^ 49 → mulBackoff w.OutOfRange b = 17 * b / 10) ∧
    (∀ b : Int, b < 0 → -(2 ^ 49) < b → mulBackoff w.OutOfRange b = -(17 * (-b) / 10)) ∧
    (∀ b : Int, ¬ (minInt64 ≤ mulBackoffExact b ∧ mulBackoffExact b ≤ maxInt64) →
      mulBackoff w.OutOfRange b = w.OutOfRange (mulBackoffExact b)) ∧
    (mulBackoff w.OutOfRange)^[0] (10000000 : Duration) = 10000000 ∧
    (mulBackoff w.OutOfRange)^[1] (10000000 : Duration) = 17000000 := by
  have htarget : (NextInstance reg now).1 ≠ [] := by
    intro he
    have hfw : (Forward f w now).1 =
        { resp := none, err := some Err.noServices, issued := [], sleeps := [],
          finish := now } := by
      unfold Forward
      rw [hc, hr]
      simp only [he, if_true]
    rw [hfw] at hk
    simp at hk
  have hfw := Forward_configured f w now c reg hc hr htarget
  have hloop := retryLoop_sleep_after f c w (w.WithTimeout now f.Timeout)
    (NextInstance reg now).1 (f.MaxRetries + 1).toNat 0 now f.BackoffBase none k t
    (by rw [← hfw]; exact hk)
  rw [Nat.zero_add, ← hfw] at hloop
  refine ⟨hloop.1, hloop.2, ?_, ?_, ?_, ?_, ?_, ?_, rfl, ?_⟩
  · intro doneAt t₀ t₁ d e tie h
    exact idealContext_wait_none doneAt e tie t₀ t₁ d h
  · intro j d h
    exact Forward_sleeps f w now j d h
  · intro j b
    exact Function.iterate_succ_apply' (mulBackoff w.OutOfRange) j b
  · intro b h₀ h₁
    exact mulBackoff_of_nonneg w.OutOfRange b h₀ h₁
  · intro b h₀ h₁
    exact mulBackoff_of_neg w.OutOfRange b h₀ h₁
  · intro b h
    exact mulBackoff_of_not_fits w.OutOfRange b h
  · have h := mulBackoff_of_nonneg w.OutOfRange 10000000 (by norm_num) (by norm_num)
    rw [Function.iterate_one, h]
    norm_num

set_option maxRecDepth 4096 in
/-- Two instances of the amended C9 on the exact clock. In scenario C the attempt number 1,
issued at 11.000005ms, gets a 503 with a retry left and is followed by a sleep of 17ms, after
which the attempt number 2 is issued at 29.000005ms. With backoff base `-6e18` ns the product
leaves the int64 range and the second timer is the least int64, as on amd64. -/
theorem Forward_backoff_iterates_witness :
    (Forward scenarioC (idealWorld true) 5).1.issued[1]? = some 11000005 ∧
    (Forward scenarioC (idealWorld true) 5).1.sleeps[1]? = some 17000000 ∧
    (Forward scenarioC (idealWorld true) 5).1.issued[2]? = some 29000005 ∧
    ((Forward scenarioC (idealWorld true) 5).1.sleeps[1]? =
      if retriesAfter scenarioC 1
          ((statusClient 1000000 503).Do ((NextInstance oneBackend 5).1 ++ dataPath) 1
            11000005).2 = true
        then some ((mulBackoff (idealWorld true).OutOfRange)^[1] scenarioC.BackoffBase)
        else none) ∧
    (Forward hugeBackoff (idealWorld true) 0).1.sleeps = [-6000000000000000000, minInt64] := by
  have hrun : (Forward scenarioC (idealWorld true) 5).1 =
      { resp := some { StatusCode := 503, Body := 0 }, err := none,
        issued := [5, 11000005, 29000005], sleeps := [10000000, 17000000],
        finish := 30000005 } := by decide
  have hk : (Forward scenarioC (idealWorld true) 5).1.issued[1]? = some 11000005 := by
    rw [hrun]; rfl
  refine ⟨hk, by rw [hrun]; rfl, by rw [hrun]; rfl, ?_, by decide⟩
  exact (Forward_backoff_iterates scenarioC (idealWorld true) 5 (statusClient 1000000 503)
    oneBackend rfl rfl 1 11000005 hk).1

end services
